import Mathlib

/-!
Verification development for the simfinity-fe-components repository.

This file gives a shallow embedding, in Lean 4, of the pure core of the
library: the GraphQL introspection model and selection-set compiler
(`src/lib/introspection.ts`), the form-customization registry resolution
helpers (`src/lib/formCustomization.ts`), the collection-item state
transitions (`src/CollectionFieldGrid.tsx`) and the collection-change /
submission pipeline of `src/EntityForm.tsx`.

Modelling conventions:
* TypeScript values of type `T | null | undefined` become `Option T`;
  JavaScript truthiness of strings is modelled explicitly (`s ≠ ""`).
* JavaScript objects used as string-keyed records become association
  lists `List (String × _)`; key lookup is `List.find?` on the key.
* JavaScript `Array.prototype.sort` (ES2019 and later: a stable sort)
  is modelled by `List.insertionSort r` with `r a b ↔ comparator a b ≤ 0`,
  which is stable and agrees with every conforming implementation for a
  consistent comparator (the comparator in this code base is consistent:
  it is induced by a key function).
* Functions stored in customization records (visibility predicates,
  callbacks) are carried as Lean functions over type parameters.
* The value-resolver closures of the selection-set compiler (date
  parsing / locale formatting over IEEE floats) are outside the claims
  under verification and are not embedded.
-/

namespace Simfinity

/-- GraphQL introspection type reference (`IntrospectionTypeRef` in
`src/lib/introspection.ts`): `kind`, optional `name`, optional nested
`ofType`.  The inductive structure makes every `ofType` chain finite,
matching well-formed introspection payloads. -/
inductive TypeRef : Type where
  | mk (kind : Option String) (name : Option String) (ofType : Option TypeRef)

/-- Projection for the `kind` member. -/
def TypeRef.kind : TypeRef → Option String
  | .mk k _ _ => k

/-- Projection for the `name` member. -/
def TypeRef.name : TypeRef → Option String
  | .mk _ n _ => n

/-- Projection for the `ofType` member. -/
def TypeRef.ofType : TypeRef → Option TypeRef
  | .mk _ _ o => o

/-- Depth of the `ofType` chain of a type reference. -/
def TypeRef.depth : TypeRef → Nat
  | .mk _ _ none => 0
  | .mk _ _ (some u) => u.depth + 1

/-- JavaScript truthiness of the `kind` member together with the loop
condition of `unwrapNamedType`: the `while` loop keeps stepping while
`current.kind` is truthy and is none of `"SCALAR"`, `"OBJECT"`, `"ENUM"`. -/
def kindKeepsUnwrapping : Option String → Bool
  | none => false
  | some k => k ≠ "" && k ≠ "SCALAR" && k ≠ "OBJECT" && k ≠ "ENUM"

/-- Body of `unwrapNamedType` on a non-null current node: keep stepping
into `ofType` while the loop condition holds, then return `current?.name`. -/
def unwrapNamedTypeGo : TypeRef → Option String
  | .mk k n o =>
    if kindKeepsUnwrapping k then
      match o with
      | none => none
      | some u => unwrapNamedTypeGo u
    else n

/-- Embedding of `unwrapNamedType` (`src/lib/introspection.ts` lines
65–71): strips wrappers until a `SCALAR`/`OBJECT`/`ENUM` (or falsy) kind
is reached, and returns that node's `name`; returns `null` when the
chain runs out. -/
def unwrapNamedType : Option TypeRef → Option String
  | none => none
  | some t => unwrapNamedTypeGo t

/-- One observable step of the source `while` loop of `unwrapNamedType`,
indexed by fuel.  `none` means the fuel ran out before the loop exited;
`some r` means the loop exited with result `r`.  This is the form in
which termination of the source loop on finite chains is stated. -/
def unwrapNamedTypeLoop : Nat → Option TypeRef → Option (Option String)
  | 0, current =>
    match current with
    | none => some none
    | some (.mk k n _) => if kindKeepsUnwrapping k then none else some n
  | fuel + 1, current =>
    match current with
    | none => some none
    | some (.mk k n o) =>
      if kindKeepsUnwrapping k then unwrapNamedTypeLoop fuel o else some n

/-- Embedding of `isScalarOrEnum`: membership of a kind in
`{SCALAR, ENUM}`. -/
def isScalarOrEnum : Option String → Bool
  | none => false
  | some k => k == "SCALAR" || k == "ENUM"

/-- Embedding of `isListType`: true when any wrapper in the chain has
kind `LIST`. -/
def isListType : Option TypeRef → Bool
  | none => false
  | some (.mk k _ o) => if k == some "LIST" then true else isListType o

/-- Relation metadata carried by simfinity field extensions. -/
structure RelationExtension : Type where
  displayField : Option String
  embedded : Option Bool
  connectionField : Option String

/-- Field extensions (`extensions` member of a schema field). -/
structure FieldExtensions : Type where
  relation : Option RelationExtension
  stateMachine : Option Bool

/-- Embedding of `SchemaField`: a named field with a type reference and
optional extensions. -/
structure SchemaField : Type where
  name : String
  type : TypeRef
  extensions : Option FieldExtensions

/-- Embedding of `SchemaObjectType`: kind, name, optional field list,
optional enum value names. -/
structure SchemaObjectType : Type where
  kind : String
  name : String
  fields : Option (List SchemaField)
  enumValues : Option (List String)

/-- Embedding of `SchemaData`: the introspection payload, reduced to the
query-type name and the type list. -/
structure SchemaData : Type where
  queryTypeName : Option String
  types : List SchemaObjectType

/-- Embedding of `getTypeByName`: returns `undefined` on a falsy name,
otherwise the first schema type with that name. -/
def getTypeByName (schema : SchemaData) : Option String → Option SchemaObjectType
  | none => none
  | some n => if n = "" then none else schema.types.find? (fun t => t.name = n)

end Simfinity

namespace Simfinity

/-- Display-field accessor used by the selection-set compiler:
`field.extensions?.relation?.displayField ?? undefined`. -/
def SchemaField.relationDisplayField (f : SchemaField) : Option String :=
  (f.extensions.bind (·.relation)).bind (·.displayField)

/-- Embedded-relation test used by the selection-set compiler:
`field.extensions?.relation?.embedded === true`. -/
def SchemaField.relationEmbedded (f : SchemaField) : Bool :=
  ((f.extensions.bind (·.relation)).bind (·.embedded)).getD false

/-- The condition of line 245 of `src/lib/introspection.ts`, selecting the
first display-field fallback: the field is not list-typed, its unwrapped
name is truthy, and looking that name up in the schema yields a type of
kind `SCALAR` or `ENUM`. -/
def isFirstScalarCandidate (schema : SchemaData) (f : SchemaField) : Bool :=
  !isListType (some f.type) &&
    (match unwrapNamedType (some f.type) with
     | none => false
     | some nm =>
       nm ≠ "" && isScalarOrEnum ((getTypeByName schema (some nm)).map (·.kind)))

/-- Display-field choice of the OBJECT branch of
`buildSelectionSetForObjectType` (lines 239–248): the explicit
`displayField` if truthy and present on the target type, else a field
literally named `"name"` if present, else the first field satisfying
`isFirstScalarCandidate`, else `undefined`. -/
def chooseDisplayField (schema : SchemaData) (objFields : List SchemaField)
    (displayField : Option String) : Option String :=
  let objFieldNames := objFields.map (·.name)
  match displayField with
  | some d =>
    if d ≠ "" ∧ d ∈ objFieldNames then some d
    else if "name" ∈ objFieldNames then some "name"
    else (objFields.find? (isFirstScalarCandidate schema)).map (·.name)
  | none =>
    if "name" ∈ objFieldNames then some "name"
    else (objFields.find? (isFirstScalarCandidate schema)).map (·.name)

/-- Last node of an `ofType` chain: the compiler's inner loop
`while (current?.ofType) current = current.ofType` (lines 206–209). -/
def TypeRef.lastNode : TypeRef → TypeRef
  | .mk k n none => .mk k n none
  | .mk _ _ (some u) => u.lastNode

/-- The `kind` computed at line 210: `current?.kind ?? t.kind` where
`current` is the last node of the chain. -/
def leafKind (t : TypeRef) : Option String :=
  match t.lastNode.kind with
  | some k => some k
  | none => t.kind

/-- The `namedTypeName` computed at line 211: `current?.name ?? null`. -/
def leafName (t : TypeRef) : Option String :=
  t.lastNode.name

/-- Insertion into the JavaScript `Set` of sub-selection fields: appends
unless already present (a `Set` preserves insertion order and ignores
duplicates). -/
def setAdd (l : List String) (s : String) : List String :=
  if s ∈ l then l else l ++ [s]

/-- Sub-selection construction of the OBJECT branch (lines 251–259):
the chosen display field, then `id` when the relation is not embedded
and the target type has an `id` field, with a last-resort fallback that
keeps the sub-selection non-empty. -/
def buildSubFields (objFields : List SchemaField) (isEmbedded : Bool)
    (chosenDisplay : Option String) : List String :=
  let objFieldNames := objFields.map (·.name)
  let s0 : List String := []
  let s1 := match chosenDisplay with
    | some c => setAdd s0 c
    | none => s0
  let s2 := if !isEmbedded ∧ "id" ∈ objFieldNames then setAdd s1 "id" else s1
  if s2 = [] then
    if "id" ∈ objFieldNames ∧ !isEmbedded then ["id"]
    else if "name" ∈ objFieldNames then ["name"]
    else match objFields with
      | [] => []
      | f :: _ => [f.name]
  else s2

/-- Accumulator of the per-field loop of `buildSelectionSetForObjectType`:
the field-selection strings, displayed columns, sort paths and column
type names built so far. -/
structure SelectionAcc : Type where
  fieldSelections : List String
  columns : List String
  sortFieldByColumn : List (String × String)
  fieldTypeByColumn : List (String × String)

/-- One iteration of the per-field loop of
`buildSelectionSetForObjectType` (lines 200–297), appending to the
accumulator.  List-typed fields are skipped; scalar/enum fields add a
bare selection and (except `id`) a column; non-list OBJECT fields add a
sub-selection built around the chosen display field. -/
def processField (schema : SchemaData) (acc : SelectionAcc) (field : SchemaField) :
    SelectionAcc :=
  if isListType (some field.type) then acc
  else
    let kind := leafKind field.type
    let namedTypeName := leafName field.type
    if isScalarOrEnum kind then
      { acc with
        fieldSelections := acc.fieldSelections ++ [field.name]
        columns :=
          if field.name ≠ "id" then acc.columns ++ [field.name] else acc.columns
        sortFieldByColumn := acc.sortFieldByColumn ++ [(field.name, field.name)]
        fieldTypeByColumn := acc.fieldTypeByColumn ++
          [(field.name, (namedTypeName.orElse (fun _ => kind)).getD "SCALAR")] }
    else
      match namedTypeName with
      | some nm =>
        if kind = some "OBJECT" ∧ nm ≠ "" then
          let objType := getTypeByName schema (some nm)
          let objFields := (objType.bind (·.fields)).getD []
          let displayField := field.relationDisplayField
          let isEmbedded := field.relationEmbedded
          let chosenDisplay := chooseDisplayField schema objFields displayField
          let subSelection :=
            String.intercalate " " (buildSubFields objFields isEmbedded chosenDisplay)
          let sortEntry := match chosenDisplay with
            | some c => (field.name, field.name ++ "." ++ c)
            | none => (field.name, field.name)
          let typeEntry := match chosenDisplay with
            | some c =>
              (field.name,
                (unwrapNamedType
                  ((objFields.find? (fun f => f.name = c)).map (·.type))).getD "OBJECT")
            | none => (field.name, "OBJECT")
          { acc with
            fieldSelections :=
              acc.fieldSelections ++ [field.name ++ " \x7b " ++ subSelection ++ " \x7d"]
            columns := acc.columns ++ [field.name]
            sortFieldByColumn := acc.sortFieldByColumn ++ [sortEntry]
            fieldTypeByColumn := acc.fieldTypeByColumn ++ [typeEntry] }
        else acc
      | none => acc

/-- Result of the selection-set compiler.  `selectionList` is the list of
field-selection strings whose `"\n"`-join is the returned `selection`
string; the remaining members mirror the source return object (the
value-resolver closures are not embedded, see the file comment). -/
structure SelectionSetResult : Type where
  selection : String
  selectionList : List String
  columns : List String
  sortFieldByColumn : List (String × String)
  fieldTypeByColumn : List (String × String)

/-- Embedding of `buildSelectionSetForObjectType`
(`src/lib/introspection.ts` lines 188–309).  When the named type is
absent from the schema or has no `fields` member the degenerate result
`{selection: "id", columns: ["id"]}` is returned (line 197); otherwise
the per-field loop runs and `id` is prepended to the selection when the
type has an `id` field and no bare `id` selection was produced. -/
def buildSelectionSetForObjectType (schema : SchemaData) (objectTypeName : String) :
    SelectionSetResult :=
  match (getTypeByName schema (some objectTypeName)).bind (·.fields) with
  | none =>
    { selection := "id", selectionList := ["id"], columns := ["id"],
      sortFieldByColumn := [], fieldTypeByColumn := [] }
  | some fields =>
    let acc := fields.foldl (processField schema)
      { fieldSelections := [], columns := [],
        sortFieldByColumn := [], fieldTypeByColumn := [] }
    let hasIdField := fields.any (fun f => f.name = "id")
    let finalSelections :=
      if hasIdField ∧ "id" ∉ acc.fieldSelections then "id" :: acc.fieldSelections
      else acc.fieldSelections
    { selection := String.intercalate "\n" finalSelections,
      selectionList := finalSelections,
      columns := acc.columns,
      sortFieldByColumn := acc.sortFieldByColumn,
      fieldTypeByColumn := acc.fieldTypeByColumn }

end Simfinity

namespace Simfinity

/-- A NON_NULL/LIST wrapper chain: wraps a base type reference in the
given wrapper kinds, outermost first. -/
def wrapChain (ws : List String) (base : TypeRef) : TypeRef :=
  ws.foldr (fun w acc => .mk (some w) none (some acc)) base

/-- The node at which the `unwrapNamedType` loop stops (`none` when the
chain runs out before the loop condition fails). -/
def stopNode : TypeRef → Option TypeRef
  | .mk k n o =>
    if kindKeepsUnwrapping k then
      match o with
      | none => none
      | some u => stopNode u
    else some (.mk k n o)

/-- Kind of the named leaf a type reference unwraps to: the `kind` of the
node at which unwrapping stops. -/
def namedLeafKind (t : TypeRef) : Option String :=
  (stopNode t).bind (·.kind)

/-- Well-formedness of one schema field's type reference with respect to
a schema, as assumed by the specification's data-model invariant:
unwrapping stops at a node whose `kind` is `SCALAR`/`OBJECT`/`ENUM`,
whose `name` is a non-empty string, and whose name is registered in the
schema's type list with the same kind. -/
def fieldTypeWellFormed (schema : SchemaData) (f : SchemaField) : Bool :=
  match stopNode f.type with
  | none => false
  | some s =>
    match s.kind, s.name with
    | some k, some nm =>
      (k == "SCALAR" || k == "OBJECT" || k == "ENUM") && nm ≠ "" &&
        (match getTypeByName schema (some nm) with
         | some ty => ty.kind == k
         | none => false)
    | _, _ => false

/-- Modelled from the spec ("the first field on the target type that is
itself scalar/enum"): a non-list field whose named leaf kind is
`SCALAR` or `ENUM`, read off the type reference itself. -/
def specScalarOrEnumField (f : SchemaField) : Bool :=
  !isListType (some f.type) && isScalarOrEnum (namedLeafKind f.type)

/-- Shared fallback of the specification's display-field priority:
a field literally named `"name"` if present, else the first scalar/enum
field, else `undefined`. -/
def specDisplayFallback (objFields : List SchemaField) : Option String :=
  if "name" ∈ objFields.map (·.name) then some "name"
  else (objFields.find? specScalarOrEnumField).map (·.name)

/-- Modelled from the spec (display-field priority for a non-list OBJECT
field): the explicit `displayField` extension if it names an existing
field of the target type, else the `"name"`/first-scalar fallback. -/
def specDisplayFieldChoice (objFields : List SchemaField)
    (displayField : Option String) : Option String :=
  match displayField with
  | some d =>
    if d ∈ objFields.map (·.name) then some d else specDisplayFallback objFields
  | none => specDisplayFallback objFields

/-- Whether `processField` routes a field through the non-list OBJECT
branch (and therefore pushes the field's name onto the column list). -/
def takesObjectBranch (f : SchemaField) : Bool :=
  !isListType (some f.type) && !isScalarOrEnum (leafKind f.type) &&
    (match leafName f.type with
     | some nm => leafKind f.type == some "OBJECT" && nm ≠ ""
     | none => false)

end Simfinity

namespace Simfinity

/-- A `visible`/`enabled` member of a customization record: either a
constant boolean or a predicate over `(fieldName, currentValue, formData)`.
`υ` is the type of current values, `φ` the type of whole-form data. -/
inductive BVal (υ φ : Type) : Type where
  | const (b : Bool)
  | fn (f : String → Option υ → φ → Bool)

/-- Embedding of `FieldCustomization` (`src/lib/formCustomization.ts`):
the members the resolution helpers inspect.  Members whose value is
never read (only key presence is tested by the structural type guards)
are carried as presence booleans. -/
structure FieldCust (υ φ : Type) : Type where
  hasSize : Bool
  hasOnChange : Bool
  hasCustomRenderer : Bool
  visible : Option (BVal υ φ)
  enabled : Option (BVal υ φ)
  order : Option Int
  stepId : Option String

/-- Embedding of `CollectionItemModeCustomization`: the per-mode nested
field customizations (the `onSubmit` member is not consulted by the
functions under verification). -/
structure ModeCust (υ φ : Type) : Type where
  fieldsCustomization : Option (List (String × FieldCust υ φ))

/-- Embedding of `CollectionItemCustomization` (legacy per-item-type
shape): its `FieldCustomization`-shaped members (`base`, the object the
legacy fallback casts to `FieldCustomization`), the per-mode
customizations, and the legacy flat `fields` map. -/
structure ItemCust (υ φ : Type) : Type where
  base : FieldCust υ φ
  onEdit : Option (ModeCust υ φ)
  onCreate : Option (ModeCust υ φ)
  fields : Option (List (String × FieldCust υ φ))

/-- A value of the untyped customization bag
(`FieldCustomization | EmbeddedSectionCustomization |
CollectionFieldCustomization`): one JavaScript object carrying any of
the keys the structural type guards test. -/
structure Entry (υ φ : Type) : Type where
  fc : FieldCust υ φ
  hasCustomEmbeddedRenderer : Bool
  hasCustomCollectionRenderer : Bool
  hasOnDelete : Bool
  onEdit : Option (ModeCust υ φ)
  onCreate : Option (ModeCust υ φ)
  items : Option (List (String × ItemCust υ φ))

/-- Key lookup in an association list modelling a JavaScript object. -/
def alistLookup {α : Type} (l : List (String × α)) (k : String) : Option α :=
  (l.find? (fun p => p.1 = k)).map (·.2)

/-- The customization bag: field name to entry. -/
def FormCustomization (υ φ : Type) : Type := List (String × Entry υ φ)

/-- Embedding of the structural type guard `isFieldCustomization`:
presence of any of `onChange`, `customRenderer`, `size`, `enabled`,
`visible`, `order`, `stepId`. -/
def isFieldCustomization {υ φ : Type} (e : Entry υ φ) : Bool :=
  e.fc.hasOnChange || e.fc.hasCustomRenderer || e.fc.hasSize ||
    e.fc.enabled.isSome || e.fc.visible.isSome || e.fc.order.isSome ||
    e.fc.stepId.isSome

/-- Embedding of the structural type guard
`isEmbeddedSectionCustomization`: no `onChange` key, and any of
`customEmbeddedRenderer`, `size`, `order`, `visible`, `enabled`. -/
def isEmbeddedSectionCustomization {υ φ : Type} (e : Entry υ φ) : Bool :=
  !e.fc.hasOnChange &&
    (e.hasCustomEmbeddedRenderer ||
      (e.fc.hasSize || e.fc.order.isSome || e.fc.visible.isSome ||
        e.fc.enabled.isSome))

/-- Embedding of the structural type guard
`isCollectionFieldCustomization`: presence of any of `items`,
`customCollectionRenderer`, `onDelete`, `onEdit`, `onCreate`. -/
def isCollectionFieldCustomization {υ φ : Type} (e : Entry υ φ) : Bool :=
  e.items.isSome || e.hasCustomCollectionRenderer || e.hasOnDelete ||
    e.onEdit.isSome || e.onCreate.isSome

/-- Embedding of `FormCustomizationState`: the registered customization
plus the tracked visibility/enabled seeds and the resolved field
order. -/
structure FormCustomizationState (υ φ : Type) : Type where
  customization : FormCustomization υ φ
  fieldVisibility : List (String × Bool)
  fieldEnabled : List (String × Bool)
  fieldOrder : List String

/-- Seeding of one tracked boolean in `createFormCustomizationState`:
`typeof v === 'function' ? true : (v ?? true)`. -/
def seedBool {υ φ : Type} : Option (BVal υ φ) → Bool
  | some (.fn _) => true
  | some (.const b) => b
  | none => true

/-- Seeded visibility for one field (lines 352–367 of
`src/lib/formCustomization.ts`): when the entry passes the field or
embedded-section guard the `visible` member is seeded, else `true`. -/
def seedVisibility {υ φ : Type} (cust : FormCustomization υ φ) (n : String) : Bool :=
  match alistLookup cust n with
  | some e =>
    if isFieldCustomization e || isEmbeddedSectionCustomization e then
      seedBool e.fc.visible
    else true
  | none => true

/-- Seeded enabled state for one field, mirror of `seedVisibility`. -/
def seedEnabled {υ φ : Type} (cust : FormCustomization υ φ) (n : String) : Bool :=
  match alistLookup cust n with
  | some e =>
    if isFieldCustomization e || isEmbeddedSectionCustomization e then
      seedBool e.fc.enabled
    else true
  | none => true

/-- The `order` a field contributes to the sort comparator: read from the
entry only when the entry passes the field or embedded-section guard
(lines 371–383). -/
def orderOf {υ φ : Type} (cust : FormCustomization υ φ) (n : String) : Option Int :=
  match alistLookup cust n with
  | some e =>
    if isFieldCustomization e || isEmbeddedSectionCustomization e then e.fc.order
    else none
  | none => none

/-- The sort comparator of `createFormCustomizationState`
(lines 370–396): both orders present compares numerically, one present
outranks, neither compares equal. -/
def sortCompare {υ φ : Type} (cust : FormCustomization υ φ) (a b : String) : Int :=
  match orderOf cust a, orderOf cust b with
  | some x, some y => x - y
  | some _, none => -1
  | none, some _ => 1
  | none, none => 0

/-- Embedding of `createFormCustomizationState`
(`src/lib/formCustomization.ts` lines 341–404), with the registry lookup
`getFormCustomization(entityType, mode) || {}` modelled by passing the
registered customization bag directly.  `Array.prototype.sort` (stable
since ES2019) with a consistent comparator is modelled by a stable
insertion sort ordered by `sortCompare · · ≤ 0`. -/
def createFormCustomizationState {υ φ : Type} (cust : FormCustomization υ φ)
    (fieldNames : List String) : FormCustomizationState υ φ :=
  { customization := cust
    fieldVisibility := fieldNames.map (fun n => (n, seedVisibility cust n))
    fieldEnabled := fieldNames.map (fun n => (n, seedEnabled cust n))
    fieldOrder := List.insertionSort (fun a b => sortCompare cust a b ≤ 0) fieldNames }

/-- Embedding of `isFieldVisible` (lines 424–437): entries failing both
guards fall back to the tracked boolean; a predicate is called with
`(fieldName, currentValue, formData || {})`; otherwise the tracked
boolean, defaulted from the constant. -/
def isFieldVisible {υ φ : Type} [Inhabited φ] (fieldName : String)
    (state : FormCustomizationState υ φ) (currentValue : Option υ)
    (formData : Option φ) : Bool :=
  match alistLookup state.customization fieldName with
  | none => (alistLookup state.fieldVisibility fieldName).getD true
  | some e =>
    if !isFieldCustomization e && !isEmbeddedSectionCustomization e then
      (alistLookup state.fieldVisibility fieldName).getD true
    else
      match e.fc.visible with
      | some (.fn f) => f fieldName currentValue (formData.getD default)
      | some (.const b) => (alistLookup state.fieldVisibility fieldName).getD b
      | none => (alistLookup state.fieldVisibility fieldName).getD true

/-- Embedding of `isFieldEnabled` (lines 439–452), mirror of
`isFieldVisible` over the `enabled` member. -/
def isFieldEnabled {υ φ : Type} [Inhabited φ] (fieldName : String)
    (state : FormCustomizationState υ φ) (currentValue : Option υ)
    (formData : Option φ) : Bool :=
  match alistLookup state.customization fieldName with
  | none => (alistLookup state.fieldEnabled fieldName).getD true
  | some e =>
    if !isFieldCustomization e && !isEmbeddedSectionCustomization e then
      (alistLookup state.fieldEnabled fieldName).getD true
    else
      match e.fc.enabled with
      | some (.fn f) => f fieldName currentValue (formData.getD default)
      | some (.const b) => (alistLookup state.fieldEnabled fieldName).getD b
      | none => (alistLookup state.fieldEnabled fieldName).getD true

/-- Form mode for collection item customization resolution. -/
inductive FormMode : Type where
  | edit
  | create
deriving DecidableEq

/-- Embedding of `getCollectionFieldCustomization` (lines 511–522): the
bag entry for the collection field, accepted only when it passes the
collection guard. -/
def getCollectionFieldCustomization {υ φ : Type} (cust : FormCustomization υ φ)
    (collectionFieldName : String) : Option (Entry υ φ) :=
  match alistLookup cust collectionFieldName with
  | some e => if isCollectionFieldCustomization e then some e else none
  | none => none

/-- Mode-specific nested field lookup:
`m?.fieldsCustomization && m.fieldsCustomization[fieldName]`. -/
def modeFieldLookup {υ φ : Type} (m : Option (ModeCust υ φ)) (fieldName : String) :
    Option (FieldCust υ φ) :=
  m.bind (fun mc => mc.fieldsCustomization.bind (fun fcs => alistLookup fcs fieldName))

/-- Embedding of `getCollectionItemFieldCustomization`
(`src/lib/formCustomization.ts` lines 525–570): the nested early-return
structure of the source, tier by tier. -/
def getCollectionItemFieldCustomization {υ φ : Type} (cust : FormCustomization υ φ)
    (collectionFieldName itemTypeName fieldName : String) (mode : FormMode) :
    Option (FieldCust υ φ) :=
  match getCollectionFieldCustomization cust collectionFieldName with
  | none => none
  | some cc =>
    match (if mode = .edit then modeFieldLookup cc.onEdit fieldName else none) with
    | some r => some r
    | none =>
      match (if mode = .create then modeFieldLookup cc.onCreate fieldName else none) with
      | some r => some r
      | none =>
        match cc.items.bind (fun its => alistLookup its itemTypeName) with
        | none => none
        | some ic =>
          match (if mode = .edit then modeFieldLookup ic.onEdit fieldName else none) with
          | some r => some r
          | none =>
            match (if mode = .create then modeFieldLookup ic.onCreate fieldName else none) with
            | some r => some r
            | none =>
              match ic.fields.bind (fun fs => alistLookup fs fieldName) with
              | some r => some r
              | none => if ic.base.hasOnChange then some ic.base else none

/-- The per-mode member of a collection-level entry. -/
def entryModeCust {υ φ : Type} (e : Entry υ φ) : FormMode → Option (ModeCust υ φ)
  | .edit => e.onEdit
  | .create => e.onCreate

/-- The per-mode member of a legacy item-type customization. -/
def itemModeCust {υ φ : Type} (ic : ItemCust υ φ) : FormMode → Option (ModeCust υ φ)
  | .edit => ic.onEdit
  | .create => ic.onCreate

/-- Modelled from the spec (collection item field resolution order): the
first applicable of (a) collection-level mode-specific
`fieldsCustomization`, (b) the legacy per-item-type structure's
mode-specific `fieldsCustomization`, (c) the legacy flat `fields` map,
(d) the legacy item-type customization itself when it directly carries
an `onChange`; `undefined` when none applies. -/
def specCollectionItemFieldCustomization {υ φ : Type} (cust : FormCustomization υ φ)
    (collectionFieldName itemTypeName fieldName : String) (mode : FormMode) :
    Option (FieldCust υ φ) :=
  let cc := getCollectionFieldCustomization cust collectionFieldName
  let item := cc.bind (fun c => c.items.bind (fun its => alistLookup its itemTypeName))
  let tierA := cc.bind (fun c => modeFieldLookup (entryModeCust c mode) fieldName)
  let tierB := item.bind (fun ic => modeFieldLookup (itemModeCust ic mode) fieldName)
  let tierC := item.bind (fun ic => ic.fields.bind (fun fs => alistLookup fs fieldName))
  let tierD := item.bind (fun ic => if ic.base.hasOnChange then some ic.base else none)
  ((tierA.orElse (fun _ => tierB)).orElse (fun _ => tierC)).orElse (fun _ => tierD)

end Simfinity

namespace Simfinity

/-- Status tag of a collection item (`CollectionItemStatus` in
`src/CollectionFieldGrid.tsx`). -/
inductive CollectionItemStatus : Type where
  | original
  | added
  | modified
  | deleted
deriving DecidableEq

/-- A collection item: its id, optional status tag, and the remaining
payload (`ρ` stands for the other properties, carried opaquely; the
spread `{...item, __status: 'deleted'}` keeps them and replaces the
status). -/
structure CollectionItem (ρ : Type) : Type where
  id : String
  status : Option CollectionItemStatus
  payload : ρ
deriving DecidableEq

/-- Embedding of `CollectionFieldState`: the three tracking arrays. -/
structure CollectionFieldState (ρ : Type) : Type where
  added : List (CollectionItem ρ)
  modified : List (CollectionItem ρ)
  deleted : List (CollectionItem ρ)
deriving DecidableEq

/-- Embedding of the state transition of `handleDeleteItem`
(`src/CollectionFieldGrid.tsx` lines 374–409), i.e. the single state
update performed once the optional `onDelete` callback has not cancelled
the deletion (a `false` return or a thrown error leaves the state
unchanged).  An added item is removed outright; a modified item moves to
`deleted` with its status retagged; otherwise the passed item is
appended to `deleted` with status `"deleted"`. -/
def handleDeleteItem {ρ : Type} (s : CollectionFieldState ρ) (item : CollectionItem ρ) :
    CollectionFieldState ρ :=
  if s.added.any (fun i => i.id = item.id) then
    { s with added := s.added.filter (fun i => i.id ≠ item.id) }
  else if s.modified.any (fun i => i.id = item.id) then
    match s.modified.find? (fun i => i.id = item.id) with
    | some modifiedItem =>
      { s with
        modified := s.modified.filter (fun i => i.id ≠ item.id)
        deleted := s.deleted ++ [{ modifiedItem with status := some .deleted }] }
    | none => s
  else
    { s with deleted := s.deleted ++ [{ item with status := some .deleted }] }

/-- Embedding of `handleRestoreItem` (`src/CollectionFieldGrid.tsx`
lines 411–425): a deleted item is filtered out of `deleted`, a modified
item out of `modified`; any other status leaves the state unchanged. -/
def handleRestoreItem {ρ : Type} (s : CollectionFieldState ρ) (item : CollectionItem ρ) :
    CollectionFieldState ρ :=
  if item.status = some .deleted then
    { s with deleted := s.deleted.filter (fun i => i.id ≠ item.id) }
  else if item.status = some .modified then
    { s with modified := s.modified.filter (fun i => i.id ≠ item.id) }
  else s

/-- The specification's partition invariant: an id appears in at most one
of the three tracking arrays. -/
def disjointIds {ρ : Type} (s : CollectionFieldState ρ) : Prop :=
  (∀ x ∈ s.added, ∀ y ∈ s.modified, x.id ≠ y.id) ∧
    (∀ x ∈ s.added, ∀ y ∈ s.deleted, x.id ≠ y.id) ∧
    (∀ x ∈ s.modified, ∀ y ∈ s.deleted, x.id ≠ y.id)

end Simfinity

namespace Simfinity

/-- Observable outcome of an optional `beforeSubmit` callback. -/
inductive BeforeSubmitOutcome : Type where
  | retTrue
  | retFalse
  | retVoid
  | threw
deriving DecidableEq

/-- Observables of one `handleSubmit` run (`src/EntityForm.tsx`): whether
the create/update mutation was invoked, the surfaced error message, and
whether a success message was shown; `loading` is the flag's value after
the run (reset by the `finally` block). -/
structure SubmitObservables : Type where
  mutationInvoked : Bool
  errorMessage : Option String
  successShown : Bool
  loading : Bool
deriving DecidableEq

/-- Embedding of the control flow of `handleSubmit`
(`src/EntityForm.tsx` lines 1303–1436) at the level of its observables.
`formValid` is the result of `validateForm()`, `hasEntityTypeName` the
guard on `entityTypeName`; `beforeSubmit` is the registered callback's
outcome (`none` when no callback is registered); `mutationOutcome` the
mutation's result; `hasOnError` whether an `onError` callback is
registered (it then owns error presentation, so no default error is
set).  A `false` return and a thrown error in `beforeSubmit` both return
early, before the mutation; the success path always shows a success
message (from `onSuccess` or the default).  The model covers the
`create`/`edit` submissions in which one of the two mutation branches
runs, and elides the `onError`-throwing fallback, which is beyond the
`beforeSubmit` gate under verification. -/
def runHandleSubmit (formValid hasEntityTypeName : Bool)
    (beforeSubmit : Option BeforeSubmitOutcome)
    (mutationOutcome : Except String Unit) (hasOnError : Bool) :
    SubmitObservables :=
  if !formValid then
    { mutationInvoked := false, errorMessage := none, successShown := false,
      loading := false }
  else if !hasEntityTypeName then
    { mutationInvoked := false, errorMessage := none, successShown := false,
      loading := false }
  else
    match beforeSubmit with
    | some .retFalse =>
      { mutationInvoked := false, errorMessage := none, successShown := false,
        loading := false }
    | some .threw =>
      { mutationInvoked := false, errorMessage := none, successShown := false,
        loading := false }
    | _ =>
      match mutationOutcome with
      | .ok _ =>
        { mutationInvoked := true, errorMessage := none, successShown := true,
          loading := false }
      | .error msg =>
        { mutationInvoked := true,
          errorMessage := if hasOnError then none else some msg,
          successShown := false, loading := false }

end Simfinity

namespace Simfinity

/-- A JavaScript value as handled by the collection mutation pipeline of
`src/EntityForm.tsx`.  `ν` is the (opaque) type of JavaScript numbers;
the claims hold for every interpretation of numbers and of the numeric
parser, so IEEE semantics need not be fixed. -/
inductive JsVal (ν : Type) : Type where
  | str (s : String)
  | num (n : ν)
  | jsBool (b : Bool)
  | null
  | arr (l : List (JsVal ν))
  | obj (l : List (String × JsVal ν))

/-- An object value's entry list. -/
abbrev JsObj (ν : Type) : Type := List (String × JsVal ν)

/-- The test `typeof v === 'object' && v !== null` (arrays included). -/
def JsVal.isObjectLike {ν : Type} : JsVal ν → Bool
  | .arr _ => true
  | .obj _ => true
  | _ => false

/-- The JavaScript `delete o[k]` on an object modelled as an entry list. -/
def objDelete {ν : Type} (l : JsObj ν) (k : String) : JsObj ν :=
  l.filter (fun p => p.1 ≠ k)

/-- Property read `o[k]`, `none` for a missing key. -/
def objGet {ν : Type} (l : JsObj ν) (k : String) : Option (JsVal ν) :=
  (l.find? (fun p => p.1 = k)).map (·.2)

/-- The `k in o` test. -/
def objHas {ν : Type} (l : JsObj ν) (k : String) : Bool :=
  (l.find? (fun p => p.1 = k)).isSome

/-- Property write `o[k] = v`: replaces in place, appends a new key. -/
def objSet {ν : Type} (l : JsObj ν) (k : String) (v : JsVal ν) : JsObj ν :=
  if objHas l k then l.map (fun p => if p.1 = k then (k, v) else p)
  else l ++ [(k, v)]

mutual

/-- Embedding of `deepCleanCollectionItem` (`src/EntityForm.tsx`
lines 994–1021): primitives pass through, arrays are cleaned
element-wise, objects drop `__typename` and recursively clean
object-like values. -/
def deepCleanCollectionItem {ν : Type} : JsVal ν → JsVal ν
  | .arr l => .arr (deepCleanList l)
  | .obj l => .obj (deepCleanObjEntries l)
  | v => v

/-- Element-wise cleaning of an array value. -/
def deepCleanList {ν : Type} : List (JsVal ν) → List (JsVal ν)
  | [] => []
  | v :: t => deepCleanCollectionItem v :: deepCleanList t

/-- Entry-wise cleaning of an object value: the `__typename` key is
dropped, object-like values are cleaned recursively, other values are
kept as they are. -/
def deepCleanObjEntries {ν : Type} : List (String × JsVal ν) → List (String × JsVal ν)
  | [] => []
  | (k, v) :: t =>
    if k = "__typename" then deepCleanObjEntries t
    else (k, if v.isObjectLike then deepCleanCollectionItem v else v) ::
      deepCleanObjEntries t

end

/-- Embedding of `getActualScalarType` (`src/lib/introspection.ts`
lines 96–100): a falsy name yields `null`; a name containing `_` is
reduced to its last `_`-separated segment (falling back to the whole
name when that segment is empty). -/
def getActualScalarType (name : Option String) : Option String :=
  match name with
  | none => none
  | some n =>
    if n = "" then none
    else if n.contains '_' then
      match (n.splitOn "_").getLast? with
      | some l => if l = "" then some n else some l
      | none => some n
    else some n

/-- Embedding of `isDateTimeScalarName`: case-insensitive membership of
the actual scalar type in the date/time vocabulary. -/
def isDateTimeScalarName (name : Option String) : Bool :=
  match getActualScalarType name with
  | none => false
  | some a =>
    let n := a.toLower
    n == "date" || n == "datetime" || n == "timestamp" || n == "isodate" ||
      n == "graphqldate" || n == "graphqldatetime"

/-- Embedding of `isNumericScalarName`: case-insensitive membership of
the actual scalar type in `{int, float, idnumber}`. -/
def isNumericScalarName (name : Option String) : Bool :=
  match getActualScalarType name with
  | none => false
  | some a =>
    let n := a.toLower
    n == "int" || n == "float" || n == "idnumber"

/-- The test of the regular expression `^\d{4}-\d{2}-\d{2}$`. -/
def matchesDateOnly (s : String) : Bool :=
  match s.toList with
  | [a, b, c, d, h1, e, f, h2, g, i] =>
    a.isDigit && b.isDigit && c.isDigit && d.isDigit && h1 == '-' &&
      e.isDigit && f.isDigit && h2 == '-' && g.isDigit && i.isDigit
  | _ => false

/-- Per-key value conversion of `convertCollectionItemTypes`
(`src/EntityForm.tsx` lines 1024–1060): for keys that name a schema
field, truthy string values of numeric scalars are parsed to numbers and
truthy `YYYY-MM-DD` string values of date scalars are extended to
midnight-UTC date-times. -/
def convertValueForField {ν : Type} (parseNum : String → ν)
    (collectionTypeFields : List SchemaField) (k : String) (v : JsVal ν) : JsVal ν :=
  match collectionTypeFields.find? (fun f => f.name = k) with
  | none => v
  | some field =>
    let fieldTypeName := unwrapNamedType (some field.type)
    let isNumeric := isNumericScalarName fieldTypeName
    let isDate := isDateTimeScalarName fieldTypeName
    let v1 : JsVal ν := match v with
      | .str s => if isNumeric ∧ s ≠ "" then .num (parseNum s) else .str s
      | w => w
    match v1 with
    | .str s =>
      if isDate ∧ s ≠ "" ∧ matchesDateOnly s then .str (s ++ "T00:00:00.000Z")
      else .str s
    | w => w

/-- Embedding of `convertCollectionItemTypes`: converts each entry of the
item whose key names a field of the collection's object type. -/
def convertCollectionItemTypes {ν : Type} (schema : SchemaData) (parseNum : String → ν)
    (item : JsObj ν) (collectionTypeName : String) : JsObj ν :=
  match (getTypeByName schema (some collectionTypeName)).bind (·.fields) with
  | none => item
  | some fields =>
    item.map (fun p => (p.1, convertValueForField parseNum fields p.1 p.2))

/-- The members of `FormField` consulted by the collection mutation
pipeline. -/
structure FormFieldMeta : Type where
  name : String
  isCollection : Bool
  connectionField : Option String
  objectTypeName : Option String
  collectionObjectTypeName : Option String

/-- The loop of `cleanCollectionItemObjectFields` that strips `NON_NULL`
and `LIST` wrappers (its own loop, distinct from `unwrapNamedType`). -/
def unwrapNonNullListLoop : Option TypeRef → Option TypeRef
  | none => none
  | some (.mk k n o) =>
    if k == some "NON_NULL" || k == some "LIST" then unwrapNonNullListLoop o
    else some (.mk k n o)

/-- One field definition's pass of `cleanCollectionItemObjectFields`
(`src/EntityForm.tsx` lines 915–984): state-machine fields are deleted;
an object-like value of a non-embedded OBJECT field that carries an `id`
is reduced to a bare `{id}` reference. -/
def cleanOneObjectField {ν : Type} (acc : JsObj ν) (fieldDef : SchemaField) : JsObj ν :=
  let isStateMachineField := (fieldDef.extensions.bind (·.stateMachine)).getD false
  if isStateMachineField then objDelete acc fieldDef.name
  else
    match objGet acc fieldDef.name with
    | some v =>
      if v.isObjectLike then
        let current := unwrapNonNullListLoop (some fieldDef.type)
        let isObject := match current with
          | some s => s.kind == some "OBJECT"
          | none => false
        let isEmbedded := fieldDef.relationEmbedded
        match v with
        | .obj l =>
          if isObject && !isEmbedded && objHas l "id" then
            objSet acc fieldDef.name (.obj [("id", (objGet l "id").getD .null)])
          else acc
        | _ => acc
      else acc
    | none => acc

/-- Embedding of `cleanCollectionItemObjectFields` (`src/EntityForm.tsx`
lines 914–991): walks the collection object type's field definitions
over the item. -/
def cleanCollectionItemObjectFields {ν : Type} (item : JsObj ν)
    (collectionField : FormFieldMeta) (schema : SchemaData) : JsObj ν :=
  match collectionField.collectionObjectTypeName with
  | none => item
  | some objectTypeName =>
    if objectTypeName = "" then item
    else
      match schema.types.find? (fun t => t.name = objectTypeName) with
      | some objectType =>
        match objectType.fields with
        | some fields => fields.foldl cleanOneObjectField item
        | none => item
      | none => item

/-- Removal of the `__status` and `__originalData` metadata keys. -/
def stripMetadata {ν : Type} (item : JsObj ν) : JsObj ν :=
  objDelete (objDelete item "__status") "__originalData"

/-- Removal of the connection field
(`field.connectionField && item[field.connectionField] !== undefined`). -/
def removeConnectionField {ν : Type} (field : FormFieldMeta) (item : JsObj ν) : JsObj ν :=
  match field.connectionField with
  | some cf => if cf ≠ "" ∧ objHas item cf then objDelete item cf else item
  | none => item

/-- The JavaScript `s.startsWith(pre)` call, modelled over the character
lists. -/
def jsStartsWith (s pre : String) : Bool :=
  pre.toList.isPrefixOf s.toList

/-- Removal of a temporary client-side id: a truthy string id starting
with `"temp_"` is deleted. -/
def stripTempId {ν : Type} (item : JsObj ν) : JsObj ν :=
  match objGet item "id" with
  | some (.str s) => if s ≠ "" ∧ jsStartsWith s "temp_" then objDelete item "id" else item
  | _ => item

/-- An item's `id`, when it is a string, does not begin with `"temp_"`
(the claim's post-condition on transformed added items). -/
def idNotTemp {ν : Type} (item : JsObj ν) : Prop :=
  ∀ v, objGet item "id" = some (.str v) → jsStartsWith v "temp_" = false

/-- Type conversion step guarded by `field.objectTypeName` truthiness. -/
def convertIfTyped {ν : Type} (schema : SchemaData) (parseNum : String → ν)
    (field : FormFieldMeta) (item : JsObj ν) : JsObj ν :=
  match field.objectTypeName with
  | some otn => if otn ≠ "" then convertCollectionItemTypes schema parseNum item otn else item
  | none => item

/-- Transformation of one added collection item (`src/EntityForm.tsx`
lines 1072–1094): strip metadata, remove the connection field, strip a
temporary id, convert field types, reduce object fields, deep-clean
`__typename`. -/
def transformAddedItem {ν : Type} (schema : SchemaData) (parseNum : String → ν)
    (field : FormFieldMeta) (item : JsObj ν) : JsObj ν :=
  let c1 := stripMetadata item
  let c2 := removeConnectionField field c1
  let c3 := stripTempId c2
  let c4 := convertIfTyped schema parseNum field c3
  let c5 := cleanCollectionItemObjectFields c4 field schema
  deepCleanObjEntries c5

/-- Transformation of one modified collection item (lines 1103–1122):
as for added items but without the temporary-id strip. -/
def transformUpdatedItem {ν : Type} (schema : SchemaData) (parseNum : String → ν)
    (field : FormFieldMeta) (item : JsObj ν) : JsObj ν :=
  let c1 := stripMetadata item
  let c2 := removeConnectionField field c1
  let c3 := convertIfTyped schema parseNum field c2
  let c4 := cleanCollectionItemObjectFields c3 field schema
  deepCleanObjEntries c4

/-- Reduction of one deleted entry to its id (lines 1126–1141): strings
pass through, objects carrying an `id` yield that id's value, anything
else passes through. -/
def extractDeletedId {ν : Type} : JsVal ν → JsVal ν
  | .str s => .str s
  | .obj l =>
    match objGet l "id" with
    | some v => v
    | none => .obj l
  | v => v

/-- Per-collection-field changes as tracked by the form
(`CollectionFieldState` on the `EntityForm` side): deleted entries are
kept as arbitrary values since the source defends against bare-string
entries. -/
structure CollectionChanges (ν : Type) : Type where
  added : List (JsObj ν)
  modified : List (JsObj ν)
  deleted : List (JsVal ν)

/-- The per-field output object of `transformCollectionDataForMutation`:
each key is present exactly when the corresponding change list is
non-empty. -/
structure TransformedCollection (ν : Type) : Type where
  added : Option (List (JsObj ν))
  updated : Option (List (JsObj ν))
  deleted : Option (List (JsVal ν))

/-- The `Object.keys(transformedCollection).length > 0` test. -/
def TransformedCollection.nonEmpty {ν : Type} (tc : TransformedCollection ν) : Bool :=
  tc.added.isSome || tc.updated.isSome || tc.deleted.isSome

/-- One iteration of the `Object.entries(collectionChanges).forEach` loop
of `transformCollectionDataForMutation` (`src/EntityForm.tsx` lines
1067–1154): the matching collection form field is looked up; added items
are transformed with the temporary-id strip, modified items are emitted
under `updated`, deleted entries are reduced to ids, and the output
entry is emitted only when at least one change list was non-empty. -/
def transformCollectionEntry {ν : Type} (schema : SchemaData)
    (parseNum : String → ν) (formFields : List FormFieldMeta)
    (p : String × CollectionChanges ν) : List (String × TransformedCollection ν) :=
  match formFields.find? (fun f => f.name = p.1) with
  | some field =>
    if field.isCollection then
      let tc : TransformedCollection ν :=
        { added :=
            if !p.2.added.isEmpty then
              some (p.2.added.map (transformAddedItem schema parseNum field))
            else none
          updated :=
            if !p.2.modified.isEmpty then
              some (p.2.modified.map (transformUpdatedItem schema parseNum field))
            else none
          deleted :=
            if !p.2.deleted.isEmpty then some (p.2.deleted.map extractDeletedId)
            else none }
      if tc.nonEmpty then [(p.1, tc)] else []
    else []
  | none => []

/-- Embedding of `transformCollectionDataForMutation`
(`src/EntityForm.tsx` lines 1063–1158): the `forEach` accumulation of
the per-entry results over the change map. -/
def transformCollectionDataForMutation {ν : Type} (schema : SchemaData)
    (parseNum : String → ν) (formFields : List FormFieldMeta)
    (collectionChanges : List (String × CollectionChanges ν)) :
    List (String × TransformedCollection ν) :=
  collectionChanges.foldl
    (fun acc p => acc ++ transformCollectionEntry schema parseNum formFields p) []

end Simfinity

namespace Simfinity

/-- Extended sort key of a field name: its explicit order, with `⊤` for
fields lacking one, so that ordered fields always outrank unordered
ones. -/
def extOrder {υ φ : Type} (cust : FormCustomization υ φ) (n : String) : WithTop Int :=
  match orderOf cust n with
  | some o => (o : WithTop Int)
  | none => ⊤

/-- Concrete form-data shape for the end-to-end visibility scenario. -/
structure DemoFormData : Type where
  type : String
deriving Inhabited, DecidableEq

/-- The scenario's dynamic predicate: visible exactly when the form's
`type` member is `"video"`. -/
def demoVisiblePred : String → Option Unit → DemoFormData → Bool :=
  fun _ _ formData => formData.type == "video"

/-- Customization entry for the scenario's `title` field: dynamic
`visible` and `enabled` predicates and nothing else. -/
def demoEntry : Entry Unit DemoFormData :=
  { fc := { hasSize := false, hasOnChange := false, hasCustomRenderer := false,
            visible := some (.fn demoVisiblePred),
            enabled := some (.fn demoVisiblePred),
            order := none, stepId := none }
    hasCustomEmbeddedRenderer := false, hasCustomCollectionRenderer := false,
    hasOnDelete := false, onEdit := none, onCreate := none, items := none }

/-- A customization state whose tracked booleans were deliberately seeded
and imperatively forced to `false`, to exhibit that dynamic predicates
bypass them. -/
def demoState : FormCustomizationState Unit DemoFormData :=
  { customization := [("title", demoEntry)]
    fieldVisibility := [("title", false)]
    fieldEnabled := [("title", false)]
    fieldOrder := ["title"] }

/-- A bag entry carrying only an explicit `order`. -/
def orderOnlyEntry (o : Int) : Entry Unit Unit :=
  { fc := { hasSize := false, hasOnChange := false, hasCustomRenderer := false,
            visible := none, enabled := none, order := some o, stepId := none }
    hasCustomEmbeddedRenderer := false, hasCustomCollectionRenderer := false,
    hasOnDelete := false, onEdit := none, onCreate := none, items := none }

/-- Customization for the ordering example `[A, B(2), C(1), D]`. -/
def exOrderCust : FormCustomization Unit Unit :=
  [("B", orderOnlyEntry 2), ("C", orderOnlyEntry 1)]

/-- The built-in `String` scalar as a schema type entry. -/
def stringScalarType : SchemaObjectType := ⟨"SCALAR", "String", none, none⟩

/-- A type reference to the `String` scalar. -/
def strRef : TypeRef := .mk (some "SCALAR") (some "String") none

/-- A schema with no types at all. -/
def schemaEmptyCE : SchemaData := ⟨none, []⟩

/-- An object type `U` with a single `title` field and no `id` field. -/
def titleOnlyType : SchemaObjectType :=
  ⟨"OBJECT", "U", some [⟨"title", strRef, none⟩], none⟩

/-- A schema containing `String` and the id-less type `U`. -/
def schemaTitleOnly : SchemaData := ⟨none, [stringScalarType, titleOnlyType]⟩

/-- An object type `V` with scalar `id` and `title` fields. -/
def entityVType : SchemaObjectType :=
  ⟨"OBJECT", "V", some [⟨"id", strRef, none⟩, ⟨"title", strRef, none⟩], none⟩

/-- A schema containing `String` and the type `V`. -/
def schemaWithId : SchemaData := ⟨none, [stringScalarType, entityVType]⟩

/-- Fields of a `Genre`-like target type: `id`, `title` and `name`, all
scalar strings. -/
def genreFields : List SchemaField :=
  [⟨"id", strRef, none⟩, ⟨"title", strRef, none⟩, ⟨"name", strRef, none⟩]

/-- A schema registering only the `String` scalar, enough to make the
`Genre`-like fields well formed. -/
def genreSchema : SchemaData := ⟨none, [stringScalarType]⟩

/-- Schema for the collection-transform witness: an `Episode` object type
with scalar `id`/`name` fields and a non-embedded `serie` relation. -/
def episodeSchema : SchemaData :=
  ⟨none,
    [stringScalarType,
     ⟨"OBJECT", "Serie", some [⟨"id", strRef, none⟩, ⟨"name", strRef, none⟩], none⟩,
     ⟨"OBJECT", "Episode",
       some [⟨"id", strRef, none⟩, ⟨"name", strRef, none⟩,
             ⟨"serie", .mk (some "OBJECT") (some "Serie") none, none⟩],
       none⟩]⟩

/-- The collection form field `episodes` of the witness, connected
through `serie`. -/
def episodeCollectionField : FormFieldMeta :=
  { name := "episodes", isCollection := true, connectionField := some "serie",
    objectTypeName := some "Episode", collectionObjectTypeName := some "Episode" }

/-- Form fields for the collection-transform witness. -/
def episodeFormFields : List FormFieldMeta := [episodeCollectionField]

/-- Concrete changes of the witness: one added item with a temporary id
and metadata, one modified item, one deleted item. -/
def episodeChangesEntry : CollectionChanges Unit :=
  { added :=
      [[("id", .str "temp_42"), ("__status", .str "added"),
        ("__typename", .str "Episode"), ("serie", .obj [("id", .str "9")]),
        ("name", .str "Pilot")]]
    modified :=
      [[("id", .str "7"), ("__status", .str "modified"),
        ("__originalData", .obj [("name", .str "Old")]),
        ("serie", .obj [("id", .str "9"), ("__typename", .str "Serie")]),
        ("name", .str "Two")]]
    deleted := [.obj [("id", .str "5"), ("name", .str "Gone")]] }

/-- The change map of the witness. -/
def episodeChanges : List (String × CollectionChanges Unit) :=
  [("episodes", episodeChangesEntry)]

end Simfinity


namespace Simfinity

theorem unwrapNamedTypeGo_mk (k n : Option String) (o : Option TypeRef) :
    unwrapNamedTypeGo (.mk k n o) =
      if kindKeepsUnwrapping k then
        (match o with
         | none => none
         | some u => unwrapNamedTypeGo u)
      else n := by
  conv_lhs => unfold unwrapNamedTypeGo

theorem unwrapNamedTypeLoop_succ (fuel : Nat) (k n : Option String)
    (o : Option TypeRef) :
    unwrapNamedTypeLoop (fuel + 1) (some (.mk k n o)) =
      if kindKeepsUnwrapping k then unwrapNamedTypeLoop fuel o else some n := rfl

theorem unwrapNamedTypeLoop_none (fuel : Nat) :
    unwrapNamedTypeLoop fuel none = some none := by
  cases fuel <;> rfl

theorem unwrapNamedTypeLoop_eq_of_depth_lt :
    ∀ (fuel : Nat) (t : TypeRef), t.depth < fuel →
      unwrapNamedTypeLoop fuel (some t) = some (unwrapNamedType (some t)) := by
  intro fuel
  induction fuel with
  | zero => intro t h; exact absurd h (Nat.not_lt_zero _)
  | succ m ih =>
    intro t h
    cases t with
    | mk k n o =>
      rw [unwrapNamedTypeLoop_succ]
      show _ = some (unwrapNamedTypeGo (.mk k n o))
      rw [unwrapNamedTypeGo_mk]
      by_cases hk : kindKeepsUnwrapping k = true
      · simp only [hk, if_true]
        cases o with
        | none => exact unwrapNamedTypeLoop_none m
        | some u =>
          have hd : u.depth < m := by
            have hdep : TypeRef.depth (.mk k n (some u)) = u.depth + 1 := rfl
            omega
          exact ih u hd
      · simp [hk]

theorem unwrapNamedTypeGo_wrapChain (ws : List String) (base : TypeRef)
    (hws : ∀ w ∈ ws, kindKeepsUnwrapping (some w) = true) :
    unwrapNamedTypeGo (wrapChain ws base) = unwrapNamedTypeGo base := by
  induction ws with
  | nil => rfl
  | cons w t ih =>
    have hw : kindKeepsUnwrapping (some w) = true := hws w (by simp)
    show unwrapNamedTypeGo (.mk (some w) none (some (wrapChain t base))) = _
    rw [unwrapNamedTypeGo_mk]
    simp only [hw, if_true]
    exact ih (fun x hx => hws x (by simp [hx]))

theorem kindKeepsUnwrapping_of_wrapper (w : String)
    (hw : w = "NON_NULL" ∨ w = "LIST") :
    kindKeepsUnwrapping (some w) = true := by
  cases hw <;> subst_vars <;> decide

theorem kindKeepsUnwrapping_false_of_named (k : Option String)
    (hk : k = some "SCALAR" ∨ k = some "OBJECT" ∨ k = some "ENUM") :
    kindKeepsUnwrapping k = false := by
  rcases hk with h | h | h <;> subst h <;> decide

/-- C9: `unwrapNamedType` terminates on every finite `ofType` chain (the
fuel-indexed loop exits once the fuel exceeds the chain depth, with the
recursive function's value); any finite NON_NULL/LIST wrapper chain
around a named SCALAR/OBJECT/ENUM node unwraps to that node's name; a
depth-0 named node is returned identically; and a wrapper chain that
ends in a missing `ofType` without reaching a named kind yields
`null`. -/
theorem c9_unwrapNamedType_terminates_and_unwraps :
    (∀ (t : TypeRef) (fuel : Nat), t.depth < fuel →
      unwrapNamedTypeLoop fuel (some t) = some (unwrapNamedType (some t))) ∧
    (∀ (ws : List String) (k n : Option String) (o : Option TypeRef),
      (∀ w ∈ ws, w = "NON_NULL" ∨ w = "LIST") →
      (k = some "SCALAR" ∨ k = some "OBJECT" ∨ k = some "ENUM") →
      unwrapNamedType (some (wrapChain ws (.mk k n o))) = n) ∧
    (∀ (k n : Option String) (o : Option TypeRef),
      (k = some "SCALAR" ∨ k = some "OBJECT" ∨ k = some "ENUM") →
      unwrapNamedType (some (.mk k n o)) = n) ∧
    (∀ (ws : List String) (k n : Option String),
      (∀ w ∈ ws, kindKeepsUnwrapping (some w) = true) →
      kindKeepsUnwrapping k = true →
      unwrapNamedType (some (wrapChain ws (.mk k n none))) = none) := by
  refine ⟨fun t fuel h => unwrapNamedTypeLoop_eq_of_depth_lt fuel t h, ?_, ?_, ?_⟩
  · intro ws k n o hws hk
    have h1 : unwrapNamedTypeGo (wrapChain ws (.mk k n o)) =
        unwrapNamedTypeGo (.mk k n o) :=
      unwrapNamedTypeGo_wrapChain ws _ (fun w hw =>
        kindKeepsUnwrapping_of_wrapper w (hws w hw))
    have h2 : kindKeepsUnwrapping k = false := kindKeepsUnwrapping_false_of_named k hk
    show unwrapNamedTypeGo _ = n
    rw [h1, unwrapNamedTypeGo_mk, h2]
    simp
  · intro k n o hk
    have h2 : kindKeepsUnwrapping k = false := kindKeepsUnwrapping_false_of_named k hk
    show unwrapNamedTypeGo _ = n
    rw [unwrapNamedTypeGo_mk, h2]
    simp
  · intro ws k n hws hk
    have h1 : unwrapNamedTypeGo (wrapChain ws (.mk k n none)) =
        unwrapNamedTypeGo (.mk k n none) :=
      unwrapNamedTypeGo_wrapChain ws _ hws
    show unwrapNamedTypeGo _ = none
    rw [h1, unwrapNamedTypeGo_mk, hk]
    simp

/-- Witness for C9 at concrete inputs: a two-deep `[String!]`-style chain
terminates within fuel 3 and unwraps to `String`; a bare named node is
its own unwrap; an unterminated `NON_NULL` chain yields `null`. -/
theorem c9_witness :
    unwrapNamedTypeLoop 3
        (some (wrapChain ["NON_NULL", "LIST"] (.mk (some "SCALAR") (some "String") none))) =
      some (unwrapNamedType
        (some (wrapChain ["NON_NULL", "LIST"] (.mk (some "SCALAR") (some "String") none)))) ∧
    unwrapNamedType
        (some (wrapChain ["NON_NULL", "LIST"] (.mk (some "SCALAR") (some "String") none))) =
      some "String" ∧
    unwrapNamedType (some (.mk (some "OBJECT") (some "Serie") none)) = some "Serie" ∧
    unwrapNamedType (some (wrapChain ["LIST"] (.mk (some "NON_NULL") none none))) = none := by
  refine ⟨?_, ?_, ?_, ?_⟩
  · exact c9_unwrapNamedType_terminates_and_unwraps.1 _ 3 (by decide)
  · exact c9_unwrapNamedType_terminates_and_unwraps.2.1 ["NON_NULL", "LIST"]
      (some "SCALAR") (some "String") none (by decide) (by decide)
  · exact c9_unwrapNamedType_terminates_and_unwraps.2.2.1 (some "OBJECT") (some "Serie")
      none (by decide)
  · exact c9_unwrapNamedType_terminates_and_unwraps.2.2.2 ["LIST"] (some "NON_NULL")
      none (by decide) (by decide)

end Simfinity

namespace Simfinity

/-- C5: `getCollectionItemFieldCustomization` resolves exactly in the
order (a) collection-level mode-specific `fieldsCustomization`
(`onEdit` for edit mode, `onCreate` for create mode), (b) the legacy
per-item-type structure's mode-specific `fieldsCustomization`, (c) the
legacy flat `fields` map, (d) the legacy item-type customization itself
when it directly carries an `onChange`, and returns `undefined` when
none applies — i.e. it coincides with the specification's prioritized
first-match resolution. -/
theorem c5_collection_item_field_resolution_order (υ φ : Type)
    (cust : FormCustomization υ φ) (cName itName fName : String) (mode : FormMode) :
    getCollectionItemFieldCustomization cust cName itName fName mode =
      specCollectionItemFieldCustomization cust cName itName fName mode := by
  unfold getCollectionItemFieldCustomization specCollectionItemFieldCustomization
  cases hcc : getCollectionFieldCustomization cust cName with
  | none => simp
  | some cc =>
    cases mode with
    | edit =>
      simp only [entryModeCust, itemModeCust, reduceCtorEq, if_true, if_false]
      cases htA : modeFieldLookup cc.onEdit fName with
      | some r => simp [htA]
      | none =>
        cases hit : cc.items.bind (fun its => alistLookup its itName) with
        | none => simp [htA, hit]
        | some ic =>
          cases htB : modeFieldLookup ic.onEdit fName with
          | some r => simp [htA, hit, htB, itemModeCust]
          | none =>
            cases htC : ic.fields.bind (fun fs => alistLookup fs fName) with
            | some r => simp [htA, hit, htB, htC, itemModeCust]
            | none => simp [htA, hit, htB, htC, itemModeCust]
    | create =>
      simp only [entryModeCust, itemModeCust, reduceCtorEq, if_true, if_false]
      cases htA : modeFieldLookup cc.onCreate fName with
      | some r => simp [htA]
      | none =>
        cases hit : cc.items.bind (fun its => alistLookup its itName) with
        | none => simp [htA, hit]
        | some ic =>
          cases htB : modeFieldLookup ic.onCreate fName with
          | some r => simp [htA, hit, htB, itemModeCust]
          | none =>
            cases htC : ic.fields.bind (fun fs => alistLookup fs fName) with
            | some r => simp [htA, hit, htB, htC, itemModeCust]
            | none => simp [htA, hit, htB, htC, itemModeCust]

end Simfinity

namespace Simfinity

/-- C6: when a field's customization supplies `visible` (respectively
`enabled`) as a function, `isFieldVisible` (respectively
`isFieldEnabled`) returns exactly the predicate applied to
`(fieldName, currentValue, formData)`, for every tracked boolean state;
and in the end-to-end scenario with the predicate
`formData.type === "video"` and deliberately falsified tracked state,
resolution yields `false` on `{type: "audio"}` and `true` on
`{type: "video"}`. -/
theorem c6_dynamic_predicates_bypass_tracked_state :
    (∀ (υ φ : Type) [Inhabited φ] (state : FormCustomizationState υ φ)
      (fieldName : String) (e : Entry υ φ) (f : String → Option υ → φ → Bool)
      (v : Option υ) (fd : φ),
      alistLookup state.customization fieldName = some e →
      e.fc.visible = some (.fn f) →
      isFieldVisible fieldName state v (some fd) = f fieldName v fd) ∧
    (∀ (υ φ : Type) [Inhabited φ] (state : FormCustomizationState υ φ)
      (fieldName : String) (e : Entry υ φ) (g : String → Option υ → φ → Bool)
      (v : Option υ) (fd : φ),
      alistLookup state.customization fieldName = some e →
      e.fc.enabled = some (.fn g) →
      isFieldEnabled fieldName state v (some fd) = g fieldName v fd) ∧
    (isFieldVisible "title" demoState none (some ⟨"audio"⟩) = false ∧
      isFieldVisible "title" demoState none (some ⟨"video"⟩) = true) := by
  refine ⟨?_, ?_, ?_, ?_⟩
  · intro υ φ _ state fieldName e f v fd h1 h2
    have hfc : isFieldCustomization e = true := by
      simp [isFieldCustomization, h2]
    unfold isFieldVisible
    rw [h1]
    simp [hfc, h2]
  · intro υ φ _ state fieldName e g v fd h1 h2
    have hfc : isFieldCustomization e = true := by
      simp [isFieldCustomization, h2]
    unfold isFieldEnabled
    rw [h1]
    simp [hfc, h2]
  · rfl
  · rfl

/-- Witness for C6: the general clauses applied to the concrete scenario
state, discharging the lookup and shape hypotheses by computation. -/
theorem c6_witness :
    isFieldVisible "title" demoState none (some ⟨"video"⟩) =
      demoVisiblePred "title" none ⟨"video"⟩ ∧
    isFieldEnabled "title" demoState none (some ⟨"audio"⟩) =
      demoVisiblePred "title" none ⟨"audio"⟩ :=
  ⟨c6_dynamic_predicates_bypass_tracked_state.1 Unit DemoFormData demoState "title"
      demoEntry demoVisiblePred none ⟨"video"⟩ rfl rfl,
    c6_dynamic_predicates_bypass_tracked_state.2.1 Unit DemoFormData demoState "title"
      demoEntry demoVisiblePred none ⟨"audio"⟩ rfl rfl⟩

end Simfinity

namespace Simfinity

/-- C8: a `beforeSubmit` callback returning `false` and one throwing an
error produce identical submit observables — in particular no mutation
is invoked and no distinct error is surfaced — while a `true` or void
return (or no callback) lets the mutation proceed. -/
theorem c8_beforeSubmit_false_and_throw_abort_identically :
    (∀ (formValid hasEntity : Bool) (m : Except String Unit) (hasOnError : Bool),
      runHandleSubmit formValid hasEntity (some .retFalse) m hasOnError =
        runHandleSubmit formValid hasEntity (some .threw) m hasOnError) ∧
    (∀ (formValid hasEntity : Bool) (m : Except String Unit) (hasOnError : Bool),
      (runHandleSubmit formValid hasEntity (some .retFalse) m hasOnError).mutationInvoked
          = false ∧
        (runHandleSubmit formValid hasEntity (some .retFalse) m hasOnError).errorMessage
          = none ∧
        (runHandleSubmit formValid hasEntity (some .threw) m hasOnError).mutationInvoked
          = false ∧
        (runHandleSubmit formValid hasEntity (some .threw) m hasOnError).errorMessage
          = none) ∧
    (∀ (bs : Option BeforeSubmitOutcome) (m : Except String Unit) (hasOnError : Bool),
      (bs = none ∨ bs = some .retTrue ∨ bs = some .retVoid) →
      (runHandleSubmit true true bs m hasOnError).mutationInvoked = true) := by
  refine ⟨?_, ?_, ?_⟩
  · intro v h m e
    cases v <;> cases h <;> rfl
  · intro v h m e
    refine ⟨?_, ?_, ?_, ?_⟩ <;> cases v <;> cases h <;> rfl
  · intro bs m e hbs
    rcases hbs with h | h | h <;> subst h <;> cases m <;> rfl

/-- Witness for C8: with a valid form, a registered entity type and no
`beforeSubmit` callback, the mutation is invoked. -/
theorem c8_witness :
    (runHandleSubmit true true none (.ok ()) false).mutationInvoked = true :=
  c8_beforeSubmit_false_and_throw_abort_identically.2.2 none (.ok ()) false (Or.inl rfl)

end Simfinity

namespace Simfinity

theorem any_id_eq_false_iff {ρ : Type} (l : List (CollectionItem ρ)) (i : String) :
    l.any (fun x => x.id = i) = false ↔ ∀ x ∈ l, x.id ≠ i := by
  simp [List.any_eq_true]

theorem mem_filter_id_ne {ρ : Type} {l : List (CollectionItem ρ)} {i : String}
    {x : CollectionItem ρ} (hx : x ∈ l.filter (fun y => y.id ≠ i)) :
    x ∈ l ∧ x.id ≠ i := by
  have := List.mem_filter.mp hx
  simpa using this

/-- C3: under the partition invariant, deleting an item whose id is in
`modified` removes that id from `modified` and records it in `deleted`
with status `"deleted"`; and the delete transition (a single state
update) preserves the invariant that an id appears in at most one of the
three arrays. -/
theorem c3_delete_moves_modified_and_preserves_partition (ρ : Type)
    (s : CollectionFieldState ρ) (item : CollectionItem ρ)
    (hdisj : disjointIds s) :
    ((∃ m ∈ s.modified, m.id = item.id) →
      (∀ m ∈ (handleDeleteItem s item).modified, m.id ≠ item.id) ∧
        (∃ d ∈ (handleDeleteItem s item).deleted,
          d.id = item.id ∧ d.status = some .deleted)) ∧
    disjointIds (handleDeleteItem s item) := by
  obtain ⟨h12, h13, h23⟩ := hdisj
  by_cases ha : s.added.any (fun x => x.id = item.id) = true
  · -- the item is an added one: it is removed from `added` outright
    have hs' : handleDeleteItem s item =
        { s with added := s.added.filter (fun y => y.id ≠ item.id) } := by
      simp [handleDeleteItem, ha]
    obtain ⟨xa, hxa, hxaid⟩ := List.any_eq_true.mp ha
    have hxaid' : xa.id = item.id := by simpa using hxaid
    constructor
    · rintro ⟨m0, hm0, hm0id⟩
      exact absurd (hxaid'.trans hm0id.symm) (h12 xa hxa m0 hm0)
    · rw [hs']
      refine ⟨?_, ?_, ?_⟩
      · intro x hx y hy
        exact h12 x (mem_filter_id_ne hx).1 y hy
      · intro x hx y hy
        exact h13 x (mem_filter_id_ne hx).1 y hy
      · intro x hx y hy
        exact h23 x hx y hy
  · have ha' : s.added.any (fun x => x.id = item.id) = false :=
      Bool.not_eq_true _ ▸ eq_false_of_ne_true ha
    have haddall : ∀ x ∈ s.added, x.id ≠ item.id :=
      (any_id_eq_false_iff _ _).mp ha'
    by_cases hm : s.modified.any (fun x => x.id = item.id) = true
    · -- the item is a modified one: it moves to `deleted`
      have hfind : (s.modified.find? (fun x => x.id = item.id)).isSome := by
        rw [List.find?_isSome]
        obtain ⟨x, hx, hxp⟩ := List.any_eq_true.mp hm
        exact ⟨x, hx, hxp⟩
      obtain ⟨m0, hm0eq⟩ := Option.isSome_iff_exists.mp hfind
      have hm0id : m0.id = item.id := by
        have := List.find?_some hm0eq
        simpa using this
      have hm0mem : m0 ∈ s.modified := List.mem_of_find?_eq_some hm0eq
      have hs' : handleDeleteItem s item =
          { s with
            modified := s.modified.filter (fun y => y.id ≠ item.id)
            deleted := s.deleted ++ [{ m0 with status := some .deleted }] } := by
        simp [handleDeleteItem, ha, hm, hm0eq]
      constructor
      · intro _
        rw [hs']
        refine ⟨?_, ?_⟩
        · intro m hmm
          exact (mem_filter_id_ne hmm).2
        · exact ⟨{ m0 with status := some .deleted }, by simp, hm0id, rfl⟩
      · rw [hs']
        refine ⟨?_, ?_, ?_⟩
        · intro x hx y hy
          exact h12 x hx y (mem_filter_id_ne hy).1
        · intro x hx y hy
          rcases List.mem_append.mp hy with hy' | hy'
          · exact h13 x hx y hy'
          · have : y = { m0 with status := some .deleted } := by simpa using hy'
            subst this
            exact fun hcontra => haddall x hx (hcontra.trans hm0id)
        · intro x hx y hy
          rcases List.mem_append.mp hy with hy' | hy'
          · exact h23 x (mem_filter_id_ne hx).1 y hy'
          · have : y = { m0 with status := some .deleted } := by simpa using hy'
            subst this
            have hxne := (mem_filter_id_ne hx).2
            exact fun hcontra => hxne (by simpa [hm0id] using hcontra)
    · -- the item is an original one: it is appended to `deleted`
      have hm' : s.modified.any (fun x => x.id = item.id) = false :=
        Bool.not_eq_true _ ▸ eq_false_of_ne_true hm
      have hmodall : ∀ x ∈ s.modified, x.id ≠ item.id :=
        (any_id_eq_false_iff _ _).mp hm'
      have hs' : handleDeleteItem s item =
          { s with deleted := s.deleted ++ [{ item with status := some .deleted }] } := by
        simp [handleDeleteItem, ha, hm]
      constructor
      · rintro ⟨m0, hm0, hm0id⟩
        exact absurd hm0id (hmodall m0 hm0)
      · rw [hs']
        refine ⟨?_, ?_, ?_⟩
        · intro x hx y hy
          exact h12 x hx y hy
        · intro x hx y hy
          rcases List.mem_append.mp hy with hy' | hy'
          · exact h13 x hx y hy'
          · have : y = { item with status := some .deleted } := by simpa using hy'
            subst this
            exact haddall x hx
        · intro x hx y hy
          rcases List.mem_append.mp hy with hy' | hy'
          · exact h23 x hx y hy'
          · have : y = { item with status := some .deleted } := by simpa using hy'
            subst this
            exact hmodall x hx

end Simfinity

namespace Simfinity

/-- Witness for C3: the specification's own example — `modified` holds
id `"5"`, deleting it empties `modified` and records a `"deleted"`-tagged
entry, and the partition invariant holds afterwards. -/
theorem c3_witness :
    (∀ m ∈ (handleDeleteItem
        (⟨[], [⟨"5", some .modified, ()⟩], []⟩ : CollectionFieldState Unit)
        ⟨"5", some .modified, ()⟩).modified, m.id ≠ "5") ∧
    (∃ d ∈ (handleDeleteItem
        (⟨[], [⟨"5", some .modified, ()⟩], []⟩ : CollectionFieldState Unit)
        ⟨"5", some .modified, ()⟩).deleted, d.id = "5" ∧ d.status = some .deleted) ∧
    disjointIds (handleDeleteItem
        (⟨[], [⟨"5", some .modified, ()⟩], []⟩ : CollectionFieldState Unit)
        ⟨"5", some .modified, ()⟩) := by
  have h := c3_delete_moves_modified_and_preserves_partition Unit
    ⟨[], [⟨"5", some .modified, ()⟩], []⟩ ⟨"5", some .modified, ()⟩
    (by refine ⟨?_, ?_, ?_⟩ <;> simp)
  have hmem : ∃ m ∈ (⟨[], [⟨"5", some .modified, ()⟩], []⟩ :
      CollectionFieldState Unit).modified, m.id = "5" :=
    ⟨⟨"5", some .modified, ()⟩, by simp, rfl⟩
  exact ⟨(h.1 hmem).1, (h.1 hmem).2, h.2⟩

/-- C10: deleting an item whose id is tracked in none of the three
arrays appends it to `deleted` with status `"deleted"` and leaves
`added`/`modified` untouched, and restoring that deleted item returns
the state exactly to its original value. -/
theorem c10_delete_then_restore_roundtrip (ρ : Type) (s : CollectionFieldState ρ)
    (item : CollectionItem ρ)
    (ha : ∀ x ∈ s.added, x.id ≠ item.id)
    (hm : ∀ x ∈ s.modified, x.id ≠ item.id)
    (hd : ∀ x ∈ s.deleted, x.id ≠ item.id) :
    handleDeleteItem s item =
      { s with deleted := s.deleted ++ [{ item with status := some .deleted }] } ∧
    handleRestoreItem (handleDeleteItem s item)
      { item with status := some .deleted } = s := by
  have ha' : s.added.any (fun x => x.id = item.id) = false :=
    (any_id_eq_false_iff _ _).mpr ha
  have hm' : s.modified.any (fun x => x.id = item.id) = false :=
    (any_id_eq_false_iff _ _).mpr hm
  have h1 : handleDeleteItem s item =
      { s with deleted := s.deleted ++ [{ item with status := some .deleted }] } := by
    simp [handleDeleteItem, ha', hm']
  refine ⟨h1, ?_⟩
  rw [h1]
  have hfilter : List.filter (fun i => !decide (i.id = item.id)) s.deleted = s.deleted := by
    rw [List.filter_eq_self]
    intro x hx
    simpa using hd x hx
  simp [handleRestoreItem, List.filter_append, hfilter]

/-- Witness for C10: a state tracking only an unrelated added item
round-trips through delete and restore of id `"7"`. -/
theorem c10_witness :
    handleRestoreItem
        (handleDeleteItem
          (⟨[⟨"2", some .added, ()⟩], [], []⟩ : CollectionFieldState Unit)
          ⟨"7", none, ()⟩)
        ⟨"7", some .deleted, ()⟩ =
      (⟨[⟨"2", some .added, ()⟩], [], []⟩ : CollectionFieldState Unit) :=
  (c10_delete_then_restore_roundtrip Unit ⟨[⟨"2", some .added, ()⟩], [], []⟩
    ⟨"7", none, ()⟩ (by simp) (by simp) (by simp)).2

end Simfinity

namespace Simfinity

theorem sortCompare_le_iff {υ φ : Type} (cust : FormCustomization υ φ) (a b : String) :
    sortCompare cust a b ≤ 0 ↔ extOrder cust a ≤ extOrder cust b := by
  unfold sortCompare extOrder
  cases ha : orderOf cust a <;> cases hb : orderOf cust b
  · simp
  · simp [WithTop.top_le_iff]
  · simp
  · simp [WithTop.coe_le_coe, sub_nonpos]

theorem extOrder_eq_top_iff {υ φ : Type} (cust : FormCustomization υ φ) (a : String) :
    extOrder cust a = ⊤ ↔ (orderOf cust a).isNone = true := by
  unfold extOrder
  cases h : orderOf cust a <;> simp

theorem filter_orderedInsert_pos {α : Type} (r : α → α → Prop) [DecidableRel r]
    (p : α → Bool) (x : α) (hx : ∀ y, r x y ↔ p y = true) (hpx : p x = true) :
    ∀ t : List α, List.filter p (List.orderedInsert r x t) = x :: List.filter p t
  | [] => by simp [List.orderedInsert, hpx]
  | y :: t => by
    by_cases hr : r x y
    · have hpy : p y = true := (hx y).mp hr
      simp [List.orderedInsert, hr, hpx, hpy]
    · have hpy : p y = false := by
        cases hp : p y
        · rfl
        · exact absurd ((hx y).mpr hp) hr
      simp [List.orderedInsert, hr, hpy, filter_orderedInsert_pos r p x hx hpx t]

theorem filter_orderedInsert_neg {α : Type} (r : α → α → Prop) [DecidableRel r]
    (p : α → Bool) (x : α) (hpx : p x = false) :
    ∀ t : List α, List.filter p (List.orderedInsert r x t) = List.filter p t
  | [] => by simp [List.orderedInsert, hpx]
  | y :: t => by
    by_cases hr : r x y
    · simp [List.orderedInsert, hr, hpx]
    · rw [List.orderedInsert, if_neg hr]
      simp [List.filter_cons, filter_orderedInsert_neg r p x hpx t]

theorem filter_insertionSort {α : Type} (r : α → α → Prop) [DecidableRel r]
    (p : α → Bool) (hx : ∀ x y, p x = true → (r x y ↔ p y = true)) :
    ∀ l : List α, List.filter p (List.insertionSort r l) = List.filter p l
  | [] => rfl
  | x :: l => by
    cases hpx : p x
    · rw [List.insertionSort, filter_orderedInsert_neg r p x hpx,
        filter_insertionSort r p hx l]
      simp [hpx]
    · rw [List.insertionSort, filter_orderedInsert_pos r p x (fun y => hx x y hpx) hpx,
        filter_insertionSort r p hx l]
      simp [hpx]

end Simfinity

namespace Simfinity

/-- C7: the resolved field order is a permutation of the input in which
every field with an explicit numeric order precedes every field without
one, fields with orders are sorted by ascending order value (the
pairwise bound on the extended key states both at once), and fields
without orders keep their relative input order; on the example input
`[A, B(order 2), C(order 1), D]` the resolved order is `[C, B, A, D]`. -/
theorem c7_field_ordering_stable_sort :
    (∀ (υ φ : Type) (cust : FormCustomization υ φ) (fieldNames : List String),
      ((createFormCustomizationState cust fieldNames).fieldOrder).Perm fieldNames ∧
      List.Pairwise (fun a b => extOrder cust a ≤ extOrder cust b)
        (createFormCustomizationState cust fieldNames).fieldOrder ∧
      (createFormCustomizationState cust fieldNames).fieldOrder.filter
          (fun n => (orderOf cust n).isNone) =
        fieldNames.filter (fun n => (orderOf cust n).isNone)) ∧
    (createFormCustomizationState exOrderCust ["A", "B", "C", "D"]).fieldOrder =
      ["C", "B", "A", "D"] := by
  constructor
  · intro υ φ cust fieldNames
    haveI htot : IsTotal String (fun a b => sortCompare cust a b ≤ 0) :=
      ⟨fun a b => by
        rw [sortCompare_le_iff, sortCompare_le_iff]
        exact le_total _ _⟩
    haveI htrans : IsTrans String (fun a b => sortCompare cust a b ≤ 0) :=
      ⟨fun a b c hab hbc => by
        rw [sortCompare_le_iff] at hab hbc ⊢
        exact le_trans hab hbc⟩
    have hOrder : (createFormCustomizationState cust fieldNames).fieldOrder =
        List.insertionSort (fun a b => sortCompare cust a b ≤ 0) fieldNames := rfl
    refine ⟨?_, ?_, ?_⟩
    · rw [hOrder]
      exact List.perm_insertionSort _ _
    · rw [hOrder]
      have hs := List.sorted_insertionSort (fun a b => sortCompare cust a b ≤ 0)
        fieldNames
      exact List.Pairwise.imp (fun h => (sortCompare_le_iff cust _ _).mp h) hs
    · rw [hOrder]
      refine filter_insertionSort _ _ ?_ fieldNames
      intro x y hpx
      rw [sortCompare_le_iff]
      have hx : extOrder cust x = ⊤ := (extOrder_eq_top_iff cust x).mpr hpx
      rw [hx, top_le_iff, extOrder_eq_top_iff]
  · rfl

end Simfinity

namespace Simfinity

theorem processField_columns_cases (schema : SchemaData) (acc : SelectionAcc)
    (f : SchemaField) :
    (processField schema acc f).columns = acc.columns ∨
    ((processField schema acc f).columns = acc.columns ++ [f.name] ∧
      (f.name = "id" → takesObjectBranch f = true)) := by
  unfold processField
  cases hlist : isListType (some f.type)
  · cases hse : isScalarOrEnum (leafKind f.type)
    · cases hname : leafName f.type with
      | none => left; simp [hlist, hse, hname]
      | some nm =>
        by_cases hobj : leafKind f.type = some "OBJECT" ∧ nm ≠ ""
        · right
          have hso : isScalarOrEnum (some "OBJECT") = false := by decide
          constructor
          · simp [hlist, hse, hname, hobj.1, hobj.2, hso]
          · intro _
            unfold takesObjectBranch
            rw [hname]
            simp [hlist, hse, hobj.1, hobj.2, hso]
        · left; simp [hlist, hse, hname, hobj]
    · by_cases hid : f.name = "id"
      · left; simp [hlist, hse, hid]
      · right
        constructor
        · simp [hlist, hse, hid]
        · intro h; exact absurd h hid
  · left; simp [hlist]

theorem id_not_mem_foldl_columns (schema : SchemaData) :
    ∀ (fs : List SchemaField) (acc : SelectionAcc), "id" ∉ acc.columns →
      (∀ f ∈ fs, f.name = "id" → takesObjectBranch f = false) →
      "id" ∉ (fs.foldl (processField schema) acc).columns
  | [], acc, hacc, _ => hacc
  | f :: fs, acc, hacc, hfs => by
    rw [List.foldl_cons]
    refine id_not_mem_foldl_columns schema fs (processField schema acc f) ?_
      (fun g hg => hfs g (by simp [hg]))
    rcases processField_columns_cases schema acc f with h | ⟨h, hobj⟩
    · rw [h]; exact hacc
    · rw [h]
      intro hmem
      rcases List.mem_append.mp hmem with hmem' | hmem'
      · exact hacc hmem'
      · have hfid : f.name = "id" := by
          have : "id" = f.name := by simpa using hmem'
          exact this.symm
        have := hfs f (by simp) hfid
        rw [hobj hfid] at this
        exact absurd this (by decide)

theorem processField_selections_object (schema : SchemaData) (acc : SelectionAcc)
    (f : SchemaField) (nm : String)
    (hlist : isListType (some f.type) = false)
    (hname : leafName f.type = some nm)
    (hk : leafKind f.type = some "OBJECT") (hnm : nm ≠ "") :
    (processField schema acc f).fieldSelections =
      acc.fieldSelections ++
        [f.name ++ " \x7b " ++
          String.intercalate " "
            (buildSubFields
              (((getTypeByName schema (some nm)).bind (fun t => t.fields)).getD [])
              f.relationEmbedded
              (chooseDisplayField schema
                (((getTypeByName schema (some nm)).bind (fun t => t.fields)).getD [])
                f.relationDisplayField)) ++ " \x7d"] := by
  unfold processField
  have hso : isScalarOrEnum (some "OBJECT") = false := by decide
  have hse : isScalarOrEnum (leafKind f.type) = false := by rw [hk]; exact hso
  simp [hlist, hse, hname, hk, hnm, hso]

theorem processField_id_not_mem_selections (schema : SchemaData) (acc : SelectionAcc)
    (f : SchemaField) (hacc : "id" ∉ acc.fieldSelections) (hf : f.name ≠ "id") :
    "id" ∉ (processField schema acc f).fieldSelections := by
  cases hlist : isListType (some f.type)
  · cases hse : isScalarOrEnum (leafKind f.type)
    · cases hname : leafName f.type with
      | none =>
        have h : (processField schema acc f).fieldSelections = acc.fieldSelections := by
          unfold processField
          simp [hlist, hse, hname]
        rw [h]
        exact hacc
      | some nm =>
        by_cases hobj : leafKind f.type = some "OBJECT" ∧ nm ≠ ""
        · rw [processField_selections_object schema acc f nm hlist hname
            hobj.1 hobj.2]
          intro hmem
          rcases List.mem_append.mp hmem with h' | h'
          · exact hacc h'
          · rw [List.mem_singleton] at h'
            have hlen := congrArg String.length h'
            simp only [String.length_append] at hlen
            have h1 : (" \x7b ").length = 3 := rfl
            have h2 : (" \x7d").length = 2 := rfl
            have h3 : ("id").length = 2 := rfl
            omega
        · have h : (processField schema acc f).fieldSelections =
              acc.fieldSelections := by
            unfold processField
            simp [hlist, hse, hname, hobj]
          rw [h]
          exact hacc
    · have h : (processField schema acc f).fieldSelections =
          acc.fieldSelections ++ [f.name] := by
        unfold processField
        simp [hlist, hse]
      rw [h]
      intro hmem
      rcases List.mem_append.mp hmem with h' | h'
      · exact hacc h'
      · rw [List.mem_singleton] at h'
        exact hf h'.symm
  · have h : (processField schema acc f).fieldSelections = acc.fieldSelections := by
      unfold processField
      simp [hlist]
    rw [h]
    exact hacc

theorem id_not_mem_foldl_selections (schema : SchemaData) :
    ∀ (fs : List SchemaField) (acc : SelectionAcc), "id" ∉ acc.fieldSelections →
      (∀ f ∈ fs, f.name ≠ "id") →
      "id" ∉ (fs.foldl (processField schema) acc).fieldSelections
  | [], _, hacc, _ => hacc
  | f :: fs, acc, hacc, hfs => by
    rw [List.foldl_cons]
    exact id_not_mem_foldl_selections schema fs (processField schema acc f)
      (processField_id_not_mem_selections schema acc f hacc (hfs f (by simp)))
      (fun g hg => hfs g (by simp [hg]))

/-- Counterexample for C1: with the named type absent from the schema,
`buildSelectionSetForObjectType` returns `columns = ["id"]`, so `"id"`
does appear in the displayed column list; and for a type `U` that has no
field literally named `"id"`, the returned selection is just `"title"`,
so `"id"` is not included in the selection. -/
theorem c1_counterexample :
    "id" ∈ (buildSelectionSetForObjectType schemaEmptyCE "T").columns ∧
    (buildSelectionSetForObjectType schemaEmptyCE "T").columns = ["id"] ∧
    (buildSelectionSetForObjectType schemaTitleOnly "U").selectionList = ["title"] ∧
    "id" ∉ (buildSelectionSetForObjectType schemaTitleOnly "U").selectionList := by
  refine ⟨?_, ?_, ?_, ?_⟩ <;>
    simp [buildSelectionSetForObjectType, schemaEmptyCE, schemaTitleOnly,
      titleOnlyType, stringScalarType, getTypeByName, processField, isListType,
      strRef, leafKind, leafName, TypeRef.lastNode, isScalarOrEnum,
      TypeRef.kind, TypeRef.name, TypeRef.ofType]

/-- C1 (amended): when the named type is absent from the schema or has no
field list, the degenerate result `selection = "id"`, `columns = ["id"]`
is returned; when the type is present with a field list, `"id"` is
included in the selection list whenever the type has a field literally
named `"id"`, `"id"` never appears in the displayed column list provided
no field named `"id"` is routed through the non-list OBJECT branch, and
when the type has no field named `"id"` at all, `"id"` is not included in
the selection list. -/
theorem c1_amended_id_in_selection_not_in_columns :
    (∀ (schema : SchemaData) (objectTypeName : String),
      (getTypeByName schema (some objectTypeName)).bind (fun t => t.fields) = none →
      buildSelectionSetForObjectType schema objectTypeName =
        { selection := "id", selectionList := ["id"], columns := ["id"],
          sortFieldByColumn := [], fieldTypeByColumn := [] }) ∧
    (∀ (schema : SchemaData) (objectTypeName : String) (fs : List SchemaField),
      (getTypeByName schema (some objectTypeName)).bind (fun t => t.fields) = some fs →
      ((∃ f ∈ fs, f.name = "id") →
        "id" ∈ (buildSelectionSetForObjectType schema objectTypeName).selectionList) ∧
      ((∀ f ∈ fs, f.name = "id" → takesObjectBranch f = false) →
        "id" ∉ (buildSelectionSetForObjectType schema objectTypeName).columns) ∧
      ((∀ f ∈ fs, f.name ≠ "id") →
        "id" ∉ (buildSelectionSetForObjectType schema objectTypeName).selectionList)) := by
  constructor
  · intro schema objectTypeName h
    unfold buildSelectionSetForObjectType
    rw [h]
  · intro schema objectTypeName fs h
    refine ⟨?_, ?_, ?_⟩
    · intro hex
      have hany : fs.any (fun f => f.name = "id") = true := by
        rw [List.any_eq_true]
        obtain ⟨f, hf, hfn⟩ := hex
        exact ⟨f, hf, by simpa using hfn⟩
      unfold buildSelectionSetForObjectType
      rw [h]
      by_cases hmem :
          "id" ∈ (fs.foldl (processField schema)
            { fieldSelections := [], columns := [],
              sortFieldByColumn := [], fieldTypeByColumn := [] }).fieldSelections
      · simp [hany, hmem]
      · simp [hany, hmem]
    · intro hno
      unfold buildSelectionSetForObjectType
      rw [h]
      have hcols := id_not_mem_foldl_columns schema fs
        { fieldSelections := [], columns := [],
          sortFieldByColumn := [], fieldTypeByColumn := [] } (by simp) hno
      simpa using hcols
    · intro hno
      have hany : fs.any (fun f => f.name = "id") = false := by
        rw [List.any_eq_false]
        intro f hf
        simpa using hno f hf
      unfold buildSelectionSetForObjectType
      rw [h]
      have hsel := id_not_mem_foldl_selections schema fs
        { fieldSelections := [], columns := [],
          sortFieldByColumn := [], fieldTypeByColumn := [] } (by simp) hno
      simpa [hany] using hsel

/-- Witness for C1 (amended): the type `W`, absent from the empty schema,
yields the degenerate `columns = ["id"]`; on the schema with type `V`
carrying scalar fields `id` and `title`, the selection list contains
`"id"` and the column list does not; and for the id-less type `U` the
selection list omits `"id"`. -/
theorem c1_witness :
    (buildSelectionSetForObjectType schemaEmptyCE "W").columns = ["id"] ∧
    ("id" ∈ (buildSelectionSetForObjectType schemaWithId "V").selectionList ∧
      "id" ∉ (buildSelectionSetForObjectType schemaWithId "V").columns) ∧
    "id" ∉ (buildSelectionSetForObjectType schemaTitleOnly "U").selectionList := by
  have h0 := c1_amended_id_in_selection_not_in_columns.1 schemaEmptyCE "W"
    (by simp [getTypeByName, schemaEmptyCE])
  have h := c1_amended_id_in_selection_not_in_columns.2 schemaWithId "V"
    [⟨"id", strRef, none⟩, ⟨"title", strRef, none⟩]
    (by simp [getTypeByName, schemaWithId, entityVType, stringScalarType])
  have h' := c1_amended_id_in_selection_not_in_columns.2 schemaTitleOnly "U"
    [⟨"title", strRef, none⟩]
    (by simp [getTypeByName, schemaTitleOnly, titleOnlyType, stringScalarType])
  refine ⟨by rw [h0], ⟨h.1 ⟨⟨"id", strRef, none⟩, by simp, rfl⟩, h.2.1 ?_⟩,
    h'.2.2 ?_⟩
  · intro f hf _
    fin_cases hf <;>
      simp [takesObjectBranch, isListType, leafKind, leafName, TypeRef.lastNode,
        strRef, isScalarOrEnum, TypeRef.kind, TypeRef.name]
  · intro f hf
    fin_cases hf
    decide

end Simfinity

namespace Simfinity

theorem stopNode_mk (k n : Option String) (o : Option TypeRef) :
    stopNode (.mk k n o) =
      if kindKeepsUnwrapping k then
        (match o with
         | none => none
         | some u => stopNode u)
      else some (.mk k n o) := by
  conv_lhs => unfold stopNode

theorem unwrapNamedTypeGo_eq_stopNode :
    ∀ t : TypeRef, unwrapNamedTypeGo t = (stopNode t).bind (fun s => s.name)
  | .mk k n o => by
    rw [unwrapNamedTypeGo_mk, stopNode_mk]
    by_cases hk : kindKeepsUnwrapping k = true
    · cases o with
      | none => simp [hk]
      | some u => simp [hk, unwrapNamedTypeGo_eq_stopNode u]
    · simp [hk, TypeRef.name]

theorem fieldTypeWellFormed_destruct (schema : SchemaData) (f : SchemaField)
    (h : fieldTypeWellFormed schema f = true) :
    ∃ s k nm ty, stopNode f.type = some s ∧ s.kind = some k ∧ s.name = some nm ∧
      (k = "SCALAR" ∨ k = "OBJECT" ∨ k = "ENUM") ∧ nm ≠ "" ∧
      getTypeByName schema (some nm) = some ty ∧ ty.kind = k := by
  unfold fieldTypeWellFormed at h
  cases hs : stopNode f.type with
  | none => rw [hs] at h; simp at h
  | some s =>
    rw [hs] at h
    cases s with
    | mk sk sn so =>
      simp only [TypeRef.kind, TypeRef.name] at h
      cases sk with
      | none => simp at h
      | some k =>
        cases sn with
        | none => simp at h
        | some nm =>
          simp only [Bool.and_eq_true, Bool.or_eq_true, beq_iff_eq,
            decide_eq_true_eq] at h
          obtain ⟨⟨hkin, hnm⟩, hty⟩ := h
          cases hty' : getTypeByName schema (some nm) with
          | none => rw [hty'] at hty; simp at hty
          | some ty =>
            rw [hty'] at hty
            simp only [beq_iff_eq] at hty
            exact ⟨.mk (some k) (some nm) so, k, nm, ty, rfl, rfl, rfl,
              or_assoc.mp hkin, hnm, hty', hty⟩

theorem isFirstScalarCandidate_eq_spec (schema : SchemaData) (f : SchemaField)
    (h : fieldTypeWellFormed schema f = true) :
    isFirstScalarCandidate schema f = specScalarOrEnumField f := by
  obtain ⟨s, k, nm, ty, hs, hk, hn, hkin, hnm, hty, htyk⟩ :=
    fieldTypeWellFormed_destruct schema f h
  unfold isFirstScalarCandidate specScalarOrEnumField namedLeafKind
  have hun : unwrapNamedType (some f.type) = some nm := by
    show unwrapNamedTypeGo f.type = some nm
    rw [unwrapNamedTypeGo_eq_stopNode, hs]
    simpa using hn
  rw [hun, hs]
  simp [hty, hk, htyk, hnm]

theorem find?_congr_of_mem {α : Type} {p q : α → Bool} :
    ∀ l : List α, (∀ x ∈ l, p x = q x) → l.find? p = l.find? q
  | [], _ => rfl
  | x :: l, h => by
    have hx : p x = q x := h x (by simp)
    cases hq : q x
    · rw [List.find?_cons_of_neg _ (by rw [hx, hq]; exact Bool.false_ne_true),
        List.find?_cons_of_neg _ (by rw [hq]; exact Bool.false_ne_true)]
      exact find?_congr_of_mem l (fun y hy => h y (by simp [hy]))
    · rw [List.find?_cons_of_pos _ (by rw [hx, hq]),
        List.find?_cons_of_pos _ hq]

/-- C2: under the specification's well-formedness invariant on the
target type's field types, the compiler's display-field choice coincides
with the specification's priority (explicit valid `displayField`, else a
field literally named `"name"`, else the first scalar/enum field, else
`undefined`); and an explicit non-empty `displayField` naming an
existing field is always chosen, even when a `"name"` field is also
present. -/
theorem c2_display_field_priority :
    (∀ (schema : SchemaData) (objFields : List SchemaField)
      (displayField : Option String),
      (∀ f ∈ objFields, fieldTypeWellFormed schema f = true) →
      (∀ d, displayField = some d → d ≠ "") →
      chooseDisplayField schema objFields displayField =
        specDisplayFieldChoice objFields displayField) ∧
    (∀ (schema : SchemaData) (objFields : List SchemaField) (d : String),
      d ≠ "" → d ∈ objFields.map (fun f => f.name) →
      chooseDisplayField schema objFields (some d) = some d) := by
  constructor
  · intro schema objFields displayField hwf hd
    have hfind : objFields.find? (isFirstScalarCandidate schema) =
        objFields.find? specScalarOrEnumField :=
      find?_congr_of_mem objFields
        (fun f hf => isFirstScalarCandidate_eq_spec schema f (hwf f hf))
    unfold chooseDisplayField specDisplayFieldChoice specDisplayFallback
    cases displayField with
    | none => simp [hfind]
    | some d =>
      have hdne : d ≠ "" := hd d rfl
      by_cases hmem : d ∈ objFields.map (fun f => f.name)
      · simp [hdne, hmem]
      · simp [hdne, hmem, hfind]
  · intro schema objFields d hdne hmem
    unfold chooseDisplayField
    simp [hdne, hmem]

/-- Witness for C2: on a `Genre`-like type with fields `id`, `title` and
`name` and an explicit `displayField` of `"title"`, the compiler agrees
with the specification and chooses `"title"` despite the `"name"`
field. -/
theorem c2_witness :
    chooseDisplayField genreSchema genreFields (some "title") =
      specDisplayFieldChoice genreFields (some "title") ∧
    chooseDisplayField genreSchema genreFields (some "title") = some "title" := by
  constructor
  · refine c2_display_field_priority.1 genreSchema genreFields (some "title") ?_ ?_
    · intro f hf
      fin_cases hf <;>
        simp [fieldTypeWellFormed, stopNode, strRef, getTypeByName, genreSchema,
          stringScalarType, kindKeepsUnwrapping, TypeRef.kind, TypeRef.name]
    · intro d hdeq
      simp only [Option.some.injEq] at hdeq
      subst hdeq
      decide
  · exact c2_display_field_priority.2 genreSchema genreFields "title" (by decide)
      (by simp [genreFields])

end Simfinity

namespace Simfinity

theorem objHas_eq_isSome {ν : Type} (l : JsObj ν) (k : String) :
    objHas l k = (objGet l k).isSome := by
  unfold objHas objGet
  cases l.find? (fun p => p.1 = k) <;> simp

theorem objGet_objDelete_self {ν : Type} (l : JsObj ν) (k : String) :
    objGet (objDelete l k) k = none := by
  unfold objGet objDelete
  rw [List.find?_eq_none.mpr]
  · rfl
  · intro p hp
    have := (List.mem_filter.mp hp).2
    simp at this ⊢
    exact this

theorem objHas_objDelete_self {ν : Type} (l : JsObj ν) (k : String) :
    objHas (objDelete l k) k = false := by
  rw [objHas_eq_isSome, objGet_objDelete_self]
  rfl

theorem objGet_objDelete_ne {ν : Type} (l : JsObj ν) (k k' : String) (h : k ≠ k') :
    objGet (objDelete l k') k = objGet l k := by
  unfold objGet objDelete
  induction l with
  | nil => rfl
  | cons p t ih =>
    by_cases hp : p.1 = k'
    · rw [List.filter_cons_of_neg (by simp [hp])]
      rw [List.find?_cons_of_neg _ (by simp [hp, h.symm])] at *
      exact ih
    · rw [List.filter_cons_of_pos (by simp [hp])]
      by_cases hk : p.1 = k
      · rw [List.find?_cons_of_pos _ (by simp [hk]),
          List.find?_cons_of_pos _ (by simp [hk])]
      · rw [List.find?_cons_of_neg _ (by simp [hk]),
          List.find?_cons_of_neg _ (by simp [hk])]
        exact ih

theorem objHas_objDelete_false {ν : Type} (l : JsObj ν) (k k' : String)
    (h : objHas l k = false) : objHas (objDelete l k') k = false := by
  by_cases hk : k = k'
  · subst hk; exact objHas_objDelete_self l k
  · rw [objHas_eq_isSome, objGet_objDelete_ne l k k' hk, ← objHas_eq_isSome]
    exact h

theorem objGet_mapReplace_self {ν : Type} (k : String) (v : JsVal ν) :
    ∀ l : JsObj ν, objHas l k = true →
      objGet (l.map (fun p => if p.1 = k then (k, v) else p)) k = some v
  | [], hhas => by simp [objHas, List.find?] at hhas
  | p :: t, hhas => by
    unfold objGet
    by_cases hp : p.1 = k
    · rw [List.map_cons, if_pos hp, List.find?_cons_of_pos _ (by simp)]
      rfl
    · rw [objHas_eq_isSome] at hhas
      unfold objGet at hhas
      rw [List.find?_cons_of_neg _ (by simp [hp])] at hhas
      rw [List.map_cons, if_neg hp, List.find?_cons_of_neg _ (by simp [hp])]
      have := objGet_mapReplace_self k v t (by rw [objHas_eq_isSome]; exact hhas)
      unfold objGet at this
      exact this

theorem objGet_mapReplace_ne {ν : Type} (k k' : String) (v : JsVal ν) (h : k ≠ k') :
    ∀ l : JsObj ν,
      objGet (l.map (fun p => if p.1 = k' then (k', v) else p)) k = objGet l k
  | [] => rfl
  | p :: t => by
    unfold objGet
    by_cases hp : p.1 = k'
    · rw [List.map_cons, if_pos hp, List.find?_cons_of_neg _ (by simp [h.symm]),
        List.find?_cons_of_neg _ (by simp [hp, h.symm])]
      have := objGet_mapReplace_ne k k' v h t
      unfold objGet at this
      exact this
    · by_cases hk : p.1 = k
      · rw [List.map_cons, if_neg hp, List.find?_cons_of_pos _ (by simp [hk]),
          List.find?_cons_of_pos _ (by simp [hk])]
      · rw [List.map_cons, if_neg hp, List.find?_cons_of_neg _ (by simp [hk]),
          List.find?_cons_of_neg _ (by simp [hk])]
        have := objGet_mapReplace_ne k k' v h t
        unfold objGet at this
        exact this

theorem objGet_objSet_self {ν : Type} (l : JsObj ν) (k : String) (v : JsVal ν) :
    objGet (objSet l k v) k = some v := by
  unfold objSet
  by_cases hhas : objHas l k = true
  · rw [if_pos hhas]
    exact objGet_mapReplace_self k v l hhas
  · rw [if_neg hhas]
    rw [objHas_eq_isSome] at hhas
    unfold objGet at hhas ⊢
    rw [List.find?_append]
    cases hfind : l.find? (fun p => p.1 = k) with
    | some p => rw [hfind] at hhas; simp at hhas
    | none => simp [List.find?]

theorem objGet_objSet_ne {ν : Type} (l : JsObj ν) (k k' : String) (v : JsVal ν)
    (h : k ≠ k') : objGet (objSet l k' v) k = objGet l k := by
  unfold objSet
  by_cases hhas : objHas l k' = true
  · rw [if_pos hhas]
    exact objGet_mapReplace_ne k k' v h l
  · rw [if_neg hhas]
    unfold objGet
    rw [List.find?_append]
    cases hfind : l.find? (fun p => p.1 = k) with
    | some p => simp
    | none => simp [List.find?, h.symm]

theorem objGet_map_values {ν : Type} (f : String → JsVal ν → JsVal ν) :
    ∀ (l : JsObj ν) (k : String),
      objGet (l.map (fun p => (p.1, f p.1 p.2))) k = (objGet l k).map (f k)
  | [], _ => rfl
  | p :: t, k => by
    unfold objGet
    by_cases hp : p.1 = k
    · rw [List.map_cons, List.find?_cons_of_pos _ (by simp [hp]),
        List.find?_cons_of_pos _ (by simp [hp])]
      subst hp
      simp
    · rw [List.map_cons, List.find?_cons_of_neg _ (by simp [hp]),
        List.find?_cons_of_neg _ (by simp [hp])]
      exact objGet_map_values f t k

end Simfinity

namespace Simfinity

theorem objGet_deepCleanObjEntries_typename {ν : Type} :
    ∀ l : List (String × JsVal ν), objGet (deepCleanObjEntries l) "__typename" = none
  | [] => rfl
  | (k, v) :: t => by
    by_cases hk : k = "__typename"
    · rw [deepCleanObjEntries, if_pos hk]
      exact objGet_deepCleanObjEntries_typename t
    · rw [deepCleanObjEntries, if_neg hk]
      unfold objGet
      rw [List.find?_cons_of_neg _ (by simp [hk])]
      exact objGet_deepCleanObjEntries_typename t

theorem objGet_deepCleanObjEntries_ne {ν : Type} (k : String) (hk : k ≠ "__typename") :
    ∀ l : List (String × JsVal ν),
      objGet (deepCleanObjEntries l) k =
        (objGet l k).map (fun v => if v.isObjectLike then deepCleanCollectionItem v else v)
  | [] => rfl
  | (k', v) :: t => by
    by_cases hk' : k' = "__typename"
    · rw [deepCleanObjEntries, if_pos hk']
      unfold objGet
      rw [List.find?_cons_of_neg _ (by simp [hk']; exact fun h => hk h.symm)]
      exact objGet_deepCleanObjEntries_ne k hk t
    · rw [deepCleanObjEntries, if_neg hk']
      by_cases hkk : k' = k
      · unfold objGet
        rw [List.find?_cons_of_pos _ (by simp [hkk]),
          List.find?_cons_of_pos _ (by simp [hkk])]
        rfl
      · unfold objGet
        rw [List.find?_cons_of_neg _ (by simp [hkk]),
          List.find?_cons_of_neg _ (by simp [hkk])]
        exact objGet_deepCleanObjEntries_ne k hk t

theorem objHas_deepCleanObjEntries_false {ν : Type} (l : List (String × JsVal ν))
    (k : String) (h : objHas l k = false) :
    objHas (deepCleanObjEntries l) k = false := by
  by_cases hk : k = "__typename"
  · subst hk
    rw [objHas_eq_isSome, objGet_deepCleanObjEntries_typename]
    rfl
  · rw [objHas_eq_isSome, objGet_deepCleanObjEntries_ne k hk]
    rw [objHas_eq_isSome] at h
    cases hg : objGet l k with
    | none => rfl
    | some v => rw [hg] at h; simp at h

theorem objHas_convert_false {ν : Type} (schema : SchemaData) (p : String → ν)
    (item : JsObj ν) (otn : String) (k : String) (h : objHas item k = false) :
    objHas (convertCollectionItemTypes schema p item otn) k = false := by
  unfold convertCollectionItemTypes
  cases hf : (getTypeByName schema (some otn)).bind (fun t => t.fields) with
  | none => exact h
  | some fields =>
    rw [objHas_eq_isSome, objGet_map_values]
    rw [objHas_eq_isSome] at h
    cases hg : objGet item k with
    | none => rfl
    | some v => rw [hg] at h; simp at h

theorem objHas_cleanOneObjectField_false {ν : Type} (acc : JsObj ν)
    (fd : SchemaField) (k : String) (h : objHas acc k = false) :
    objHas (cleanOneObjectField acc fd) k = false := by
  unfold cleanOneObjectField
  by_cases hsm : ((fd.extensions.bind (fun e => e.stateMachine)).getD false) = true
  · simp only [hsm, if_true]
    exact objHas_objDelete_false acc k fd.name h
  · simp only [hsm, if_false, Bool.false_eq_true]
    cases hg : objGet acc fd.name with
    | none => exact h
    | some v =>
      have hne : fd.name ≠ k := by
        intro he
        rw [he] at hg
        rw [objHas_eq_isSome, hg] at h
        simp at h
      cases v with
      | obj l =>
        by_cases hcond :
            ((match unwrapNonNullListLoop (some fd.type) with
              | some s => s.kind == some "OBJECT"
              | none => false) && !fd.relationEmbedded && objHas l "id") = true
        · simp only [JsVal.isObjectLike, if_true, hcond]
          rw [objHas_eq_isSome,
            objGet_objSet_ne acc k fd.name _ (fun he => hne he.symm),
            ← objHas_eq_isSome]
          exact h
        · simp only [JsVal.isObjectLike, if_true, hcond, Bool.false_eq_true, if_false]
          exact h
      | arr l => simp only [JsVal.isObjectLike, if_true]; exact h
      | str s => simp only [JsVal.isObjectLike, Bool.false_eq_true, if_false]; exact h
      | num n => simp only [JsVal.isObjectLike, Bool.false_eq_true, if_false]; exact h
      | jsBool b => simp only [JsVal.isObjectLike, Bool.false_eq_true, if_false]; exact h
      | null => simp only [JsVal.isObjectLike, Bool.false_eq_true, if_false]; exact h

theorem objHas_foldl_cleanOneObjectField_false {ν : Type} (k : String) :
    ∀ (fds : List SchemaField) (acc : JsObj ν), objHas acc k = false →
      objHas (fds.foldl cleanOneObjectField acc) k = false
  | [], acc, h => h
  | fd :: fds, acc, h => by
    rw [List.foldl_cons]
    exact objHas_foldl_cleanOneObjectField_false k fds _
      (objHas_cleanOneObjectField_false acc fd k h)

theorem objHas_cleanCollectionItemObjectFields_false {ν : Type} (item : JsObj ν)
    (fld : FormFieldMeta) (schema : SchemaData) (k : String)
    (h : objHas item k = false) :
    objHas (cleanCollectionItemObjectFields item fld schema) k = false := by
  unfold cleanCollectionItemObjectFields
  cases fld.collectionObjectTypeName with
  | none => exact h
  | some otn =>
    by_cases hotn : otn = ""
    · simp only [hotn, if_true]; exact h
    · simp only [hotn, if_false]
      cases schema.types.find? (fun t => t.name = otn) with
      | none => exact h
      | some objectType =>
        show objHas (match objectType.fields with
          | some fields => fields.foldl cleanOneObjectField item
          | none => item) k = false
        cases objectType.fields with
        | none => exact h
        | some fields => exact objHas_foldl_cleanOneObjectField_false k fields item h

end Simfinity

namespace Simfinity

theorem jsStartsWith_empty_temp : jsStartsWith "" "temp_" = false := by decide

theorem matchesDateOnly_head (s : String) (h : matchesDateOnly s = true) :
    ∃ a t, s.toList = a :: t ∧ a.isDigit = true := by
  unfold matchesDateOnly at h
  cases hl : s.toList with
  | nil => rw [hl] at h; simp at h
  | cons a t =>
    rw [hl] at h
    refine ⟨a, t, rfl, ?_⟩
    rcases t with _ | ⟨b, _ | ⟨c, _ | ⟨d, _ | ⟨x1, _ | ⟨e, _ | ⟨f, _ | ⟨x2, _ |
      ⟨g, _ | ⟨i, _ | ⟨z, rest⟩⟩⟩⟩⟩⟩⟩⟩⟩⟩ <;> simp_all

theorem jsStartsWith_append_head_digit (s x : String) (a : Char) (t : List Char)
    (hl : s.toList = a :: t) (hd : a.isDigit = true) :
    jsStartsWith (s ++ x) "temp_" = false := by
  unfold jsStartsWith
  have happ : (s ++ x).toList = s.toList ++ x.toList := by
    show (s ++ x).data = s.data ++ x.data
    exact String.data_append s x
  rw [happ, hl]
  show List.isPrefixOf ('t' :: ['e', 'm', 'p', '_']) (a :: (t ++ x.toList)) = false
  have hne : ('t' == a) = false := by
    cases he : ('t' == a)
    · rfl
    · have : 't' = a := by simpa using he
      rw [← this] at hd
      simp at hd
  simp [List.isPrefixOf, hne]

theorem idNotTemp_stripTempId {ν : Type} (item : JsObj ν) :
    idNotTemp (stripTempId item) := by
  unfold idNotTemp stripTempId
  cases hg : objGet item "id" with
  | none => intro v hv; rw [hg] at hv; cases hv
  | some val =>
    cases val with
    | str s =>
      show ∀ v, objGet (if s ≠ "" ∧ jsStartsWith s "temp_" = true then
          objDelete item "id" else item) "id" = some (JsVal.str v) →
        jsStartsWith v "temp_" = false
      by_cases hc : s ≠ "" ∧ jsStartsWith s "temp_" = true
      · rw [if_pos hc]
        intro v hv
        rw [objGet_objDelete_self] at hv
        cases hv
      · rw [if_neg hc]
        intro v hv
        rw [hg] at hv
        have hv' : s = v := by simpa using hv
        subst hv'
        by_cases hs : s = ""
        · subst hs; exact jsStartsWith_empty_temp
        · cases hst : jsStartsWith s "temp_"
          · rfl
          · exact absurd ⟨hs, hst⟩ hc
    | num n => intro v hv; rw [hg] at hv; simp at hv
    | jsBool b => intro v hv; rw [hg] at hv; simp at hv
    | null => intro v hv; rw [hg] at hv; simp at hv
    | arr l => intro v hv; rw [hg] at hv; simp at hv
    | obj l => intro v hv; rw [hg] at hv; simp at hv

theorem convertValueForField_str_preserves {ν : Type} (p : String → ν)
    (fields : List SchemaField) (k : String) (v : JsVal ν)
    (hpre : ∀ s, v = .str s → jsStartsWith s "temp_" = false) :
    ∀ s', convertValueForField p fields k v = .str s' →
      jsStartsWith s' "temp_" = false := by
  intro s' hc
  unfold convertValueForField at hc
  cases hfd : fields.find? (fun f => f.name = k) with
  | none =>
    rw [hfd] at hc
    exact hpre s' hc
  | some field =>
    rw [hfd] at hc
    cases v with
    | str s =>
      by_cases hnum : isNumericScalarName (unwrapNamedType (some field.type)) = true ∧
          s ≠ ""
      · replace hc : (match (if isNumericScalarName (unwrapNamedType (some field.type))
              = true ∧ s ≠ "" then JsVal.num (p s) else JsVal.str s : JsVal ν) with
            | JsVal.str s =>
              if isDateTimeScalarName (unwrapNamedType (some field.type)) = true ∧
                  s ≠ "" ∧ matchesDateOnly s = true then
                JsVal.str (s ++ "T00:00:00.000Z")
              else JsVal.str s
            | w => w) = JsVal.str s' := hc
        rw [if_pos hnum] at hc
        replace hc : (JsVal.num (p s) : JsVal ν) = JsVal.str s' := hc
        cases hc
      · replace hc : (match (if isNumericScalarName (unwrapNamedType (some field.type))
              = true ∧ s ≠ "" then JsVal.num (p s) else JsVal.str s : JsVal ν) with
            | JsVal.str s =>
              if isDateTimeScalarName (unwrapNamedType (some field.type)) = true ∧
                  s ≠ "" ∧ matchesDateOnly s = true then
                JsVal.str (s ++ "T00:00:00.000Z")
              else JsVal.str s
            | w => w) = JsVal.str s' := hc
        rw [if_neg hnum] at hc
        replace hc : (if isDateTimeScalarName (unwrapNamedType (some field.type))
              = true ∧ s ≠ "" ∧ matchesDateOnly s = true then
            (JsVal.str (s ++ "T00:00:00.000Z") : JsVal ν)
          else JsVal.str s) = JsVal.str s' := hc
        by_cases hdate : isDateTimeScalarName (unwrapNamedType (some field.type))
            = true ∧ s ≠ "" ∧ matchesDateOnly s = true
        · rw [if_pos hdate] at hc
          have hs' : s ++ "T00:00:00.000Z" = s' := by simpa using hc
          obtain ⟨a, t, hl, hd⟩ := matchesDateOnly_head s hdate.2.2
          rw [← hs']
          exact jsStartsWith_append_head_digit s "T00:00:00.000Z" a t hl hd
        · rw [if_neg hdate] at hc
          have hs' : s = s' := by simpa using hc
          subst hs'
          exact hpre s rfl
    | num n =>
      replace hc : (JsVal.num n : JsVal ν) = JsVal.str s' := hc
      cases hc
    | jsBool b =>
      replace hc : (JsVal.jsBool b : JsVal ν) = JsVal.str s' := hc
      cases hc
    | null =>
      replace hc : (JsVal.null : JsVal ν) = JsVal.str s' := hc
      cases hc
    | arr l =>
      replace hc : (JsVal.arr l : JsVal ν) = JsVal.str s' := hc
      cases hc
    | obj l =>
      replace hc : (JsVal.obj l : JsVal ν) = JsVal.str s' := hc
      cases hc

end Simfinity

namespace Simfinity

theorem idNotTemp_convertCollectionItemTypes {ν : Type} (schema : SchemaData)
    (p : String → ν) (item : JsObj ν) (otn : String) (h : idNotTemp item) :
    idNotTemp (convertCollectionItemTypes schema p item otn) := by
  unfold convertCollectionItemTypes
  cases hf : (getTypeByName schema (some otn)).bind (fun t => t.fields) with
  | none => exact h
  | some fields =>
    intro v hv
    rw [objGet_map_values] at hv
    cases hg : objGet item "id" with
    | none => rw [hg] at hv; cases hv
    | some w =>
      rw [hg] at hv
      have hv' : convertValueForField p fields "id" w = .str v := by simpa using hv
      refine convertValueForField_str_preserves p fields "id" w ?_ v hv'
      intro s hs
      subst hs
      exact h s hg

theorem objHas_removeConnectionField_false {ν : Type} (field : FormFieldMeta)
    (item : JsObj ν) (k : String) (h : objHas item k = false) :
    objHas (removeConnectionField field item) k = false := by
  unfold removeConnectionField
  cases field.connectionField with
  | none => exact h
  | some cf =>
    show objHas (if cf ≠ "" ∧ objHas item cf = true then objDelete item cf
      else item) k = false
    by_cases hc : cf ≠ "" ∧ objHas item cf = true
    · rw [if_pos hc]
      exact objHas_objDelete_false item k cf h
    · rw [if_neg hc]
      exact h

theorem objHas_removeConnectionField_cf {ν : Type} (field : FormFieldMeta)
    (item : JsObj ν) (cf : String) (hcf : field.connectionField = some cf)
    (hne : cf ≠ "") : objHas (removeConnectionField field item) cf = false := by
  unfold removeConnectionField
  rw [hcf]
  show objHas (if cf ≠ "" ∧ objHas item cf = true then objDelete item cf
    else item) cf = false
  by_cases hc : cf ≠ "" ∧ objHas item cf = true
  · rw [if_pos hc]
    exact objHas_objDelete_self item cf
  · rw [if_neg hc]
    cases hhas : objHas item cf
    · rfl
    · exact absurd ⟨hne, hhas⟩ hc

theorem objHas_stripTempId_false {ν : Type} (item : JsObj ν) (k : String)
    (h : objHas item k = false) : objHas (stripTempId item) k = false := by
  unfold stripTempId
  cases hg : objGet item "id" with
  | none => exact h
  | some val =>
    cases val with
    | str s =>
      show objHas (if s ≠ "" ∧ jsStartsWith s "temp_" = true then
          objDelete item "id" else item) k = false
      by_cases hc : s ≠ "" ∧ jsStartsWith s "temp_" = true
      · rw [if_pos hc]
        exact objHas_objDelete_false item k "id" h
      · rw [if_neg hc]
        exact h
    | num n => exact h
    | jsBool b => exact h
    | null => exact h
    | arr l => exact h
    | obj l => exact h

theorem objHas_convertIfTyped_false {ν : Type} (schema : SchemaData)
    (p : String → ν) (field : FormFieldMeta) (item : JsObj ν) (k : String)
    (h : objHas item k = false) :
    objHas (convertIfTyped schema p field item) k = false := by
  unfold convertIfTyped
  cases field.objectTypeName with
  | none => exact h
  | some otn =>
    show objHas (if otn ≠ "" then convertCollectionItemTypes schema p item otn
      else item) k = false
    by_cases hotn : otn ≠ ""
    · rw [if_pos hotn]
      exact objHas_convert_false schema p item otn k h
    · rw [if_neg hotn]
      exact h

theorem idNotTemp_convertIfTyped {ν : Type} (schema : SchemaData) (p : String → ν)
    (field : FormFieldMeta) (item : JsObj ν) (h : idNotTemp item) :
    idNotTemp (convertIfTyped schema p field item) := by
  unfold convertIfTyped
  cases field.objectTypeName with
  | none => exact h
  | some otn =>
    show idNotTemp (if otn ≠ "" then convertCollectionItemTypes schema p item otn
      else item)
    by_cases hotn : otn ≠ ""
    · rw [if_pos hotn]
      exact idNotTemp_convertCollectionItemTypes schema p item otn h
    · rw [if_neg hotn]
      exact h

theorem idNotTemp_cleanOneObjectField {ν : Type} (acc : JsObj ν) (fd : SchemaField)
    (h : idNotTemp acc) : idNotTemp (cleanOneObjectField acc fd) := by
  unfold cleanOneObjectField
  by_cases hsm : ((fd.extensions.bind (fun e => e.stateMachine)).getD false) = true
  · simp only [hsm, if_true]
    intro v hv
    by_cases hk : fd.name = "id"
    · rw [hk, objGet_objDelete_self] at hv
      cases hv
    · rw [objGet_objDelete_ne acc "id" fd.name (fun he => hk he.symm)] at hv
      exact h v hv
  · simp only [hsm, Bool.false_eq_true, if_false]
    cases hg : objGet acc fd.name with
    | none => exact h
    | some w =>
      cases w with
      | obj l =>
        by_cases hcond :
            ((match unwrapNonNullListLoop (some fd.type) with
              | some s => s.kind == some "OBJECT"
              | none => false) && !fd.relationEmbedded && objHas l "id") = true
        · simp only [JsVal.isObjectLike, if_true, hcond]
          intro v hv
          by_cases hk : fd.name = "id"
          · rw [hk] at hv
            rw [objGet_objSet_self] at hv
            cases hv
          · rw [objGet_objSet_ne acc "id" fd.name _ (fun he => hk he.symm)] at hv
            exact h v hv
        · simp only [JsVal.isObjectLike, if_true, hcond, Bool.false_eq_true, if_false]
          exact h
      | arr l => simp only [JsVal.isObjectLike, if_true]; exact h
      | str s => simp only [JsVal.isObjectLike, Bool.false_eq_true, if_false]; exact h
      | num n => simp only [JsVal.isObjectLike, Bool.false_eq_true, if_false]; exact h
      | jsBool b =>
        simp only [JsVal.isObjectLike, Bool.false_eq_true, if_false]; exact h
      | null => simp only [JsVal.isObjectLike, Bool.false_eq_true, if_false]; exact h

theorem idNotTemp_foldl_cleanOneObjectField {ν : Type} :
    ∀ (fds : List SchemaField) (acc : JsObj ν), idNotTemp acc →
      idNotTemp (fds.foldl cleanOneObjectField acc)
  | [], _, h => h
  | fd :: fds, acc, h => by
    rw [List.foldl_cons]
    exact idNotTemp_foldl_cleanOneObjectField fds _ (idNotTemp_cleanOneObjectField acc fd h)

theorem idNotTemp_cleanCollectionItemObjectFields {ν : Type} (item : JsObj ν)
    (fld : FormFieldMeta) (schema : SchemaData) (h : idNotTemp item) :
    idNotTemp (cleanCollectionItemObjectFields item fld schema) := by
  unfold cleanCollectionItemObjectFields
  cases fld.collectionObjectTypeName with
  | none => exact h
  | some otn =>
    by_cases hotn : otn = ""
    · simp only [hotn, if_true]; exact h
    · simp only [hotn, if_false]
      cases schema.types.find? (fun t => t.name = otn) with
      | none => exact h
      | some objectType =>
        show idNotTemp (match objectType.fields with
          | some fields => fields.foldl cleanOneObjectField item
          | none => item)
        cases objectType.fields with
        | none => exact h
        | some fields => exact idNotTemp_foldl_cleanOneObjectField fields item h

theorem idNotTemp_deepCleanObjEntries {ν : Type} (l : JsObj ν) (h : idNotTemp l) :
    idNotTemp (deepCleanObjEntries l) := by
  intro v hv
  rw [objGet_deepCleanObjEntries_ne "id" (by decide)] at hv
  cases hg : objGet l "id" with
  | none => rw [hg] at hv; cases hv
  | some w =>
    rw [hg] at hv
    cases w with
    | str s =>
      have : s = v := by simpa [JsVal.isObjectLike] using hv
      subst this
      exact h s hg
    | num n => simp [JsVal.isObjectLike] at hv
    | jsBool b => simp [JsVal.isObjectLike] at hv
    | null => simp [JsVal.isObjectLike] at hv
    | arr t => simp [JsVal.isObjectLike, deepCleanCollectionItem] at hv
    | obj t => simp [JsVal.isObjectLike, deepCleanCollectionItem] at hv

end Simfinity

namespace Simfinity

theorem objHas_deepCleanObjEntries_typename {ν : Type} (l : JsObj ν) :
    objHas (deepCleanObjEntries l) "__typename" = false := by
  rw [objHas_eq_isSome, objGet_deepCleanObjEntries_typename]
  rfl

theorem transformAddedItem_props {ν : Type} (schema : SchemaData) (p : String → ν)
    (field : FormFieldMeta) (item : JsObj ν) :
    objHas (transformAddedItem schema p field item) "__status" = false ∧
    objHas (transformAddedItem schema p field item) "__originalData" = false ∧
    objHas (transformAddedItem schema p field item) "__typename" = false ∧
    (∀ cf, field.connectionField = some cf → cf ≠ "" →
      objHas (transformAddedItem schema p field item) cf = false) ∧
    idNotTemp (transformAddedItem schema p field item) := by
  unfold transformAddedItem
  refine ⟨?_, ?_, ?_, ?_, ?_⟩
  · apply objHas_deepCleanObjEntries_false
    apply objHas_cleanCollectionItemObjectFields_false
    apply objHas_convertIfTyped_false
    apply objHas_stripTempId_false
    apply objHas_removeConnectionField_false
    exact objHas_objDelete_false _ _ _ (objHas_objDelete_self item "__status")
  · apply objHas_deepCleanObjEntries_false
    apply objHas_cleanCollectionItemObjectFields_false
    apply objHas_convertIfTyped_false
    apply objHas_stripTempId_false
    apply objHas_removeConnectionField_false
    exact objHas_objDelete_self (objDelete item "__status") "__originalData"
  · exact objHas_deepCleanObjEntries_typename _
  · intro cf hcf hne
    apply objHas_deepCleanObjEntries_false
    apply objHas_cleanCollectionItemObjectFields_false
    apply objHas_convertIfTyped_false
    apply objHas_stripTempId_false
    exact objHas_removeConnectionField_cf field _ cf hcf hne
  · apply idNotTemp_deepCleanObjEntries
    apply idNotTemp_cleanCollectionItemObjectFields
    apply idNotTemp_convertIfTyped
    exact idNotTemp_stripTempId _

theorem transformUpdatedItem_props {ν : Type} (schema : SchemaData) (p : String → ν)
    (field : FormFieldMeta) (item : JsObj ν) :
    objHas (transformUpdatedItem schema p field item) "__status" = false ∧
    objHas (transformUpdatedItem schema p field item) "__originalData" = false ∧
    objHas (transformUpdatedItem schema p field item) "__typename" = false ∧
    (∀ cf, field.connectionField = some cf → cf ≠ "" →
      objHas (transformUpdatedItem schema p field item) cf = false) := by
  unfold transformUpdatedItem
  refine ⟨?_, ?_, ?_, ?_⟩
  · apply objHas_deepCleanObjEntries_false
    apply objHas_cleanCollectionItemObjectFields_false
    apply objHas_convertIfTyped_false
    apply objHas_removeConnectionField_false
    exact objHas_objDelete_false _ _ _ (objHas_objDelete_self item "__status")
  · apply objHas_deepCleanObjEntries_false
    apply objHas_cleanCollectionItemObjectFields_false
    apply objHas_convertIfTyped_false
    apply objHas_removeConnectionField_false
    exact objHas_objDelete_self (objDelete item "__status") "__originalData"
  · exact objHas_deepCleanObjEntries_typename _
  · intro cf hcf hne
    apply objHas_deepCleanObjEntries_false
    apply objHas_cleanCollectionItemObjectFields_false
    apply objHas_convertIfTyped_false
    exact objHas_removeConnectionField_cf field _ cf hcf hne

theorem alistLookup_append {α : Type} (a b : List (String × α)) (k : String) :
    alistLookup (a ++ b) k =
      (alistLookup a k).orElse (fun _ => alistLookup b k) := by
  unfold alistLookup
  rw [List.find?_append]
  cases a.find? (fun p => p.1 = k) <;> simp

theorem transform_foldl_append {ν : Type} (schema : SchemaData) (p : String → ν)
    (ff : List FormFieldMeta) :
    ∀ (l : List (String × CollectionChanges ν))
      (init : List (String × TransformedCollection ν)),
      l.foldl (fun acc q => acc ++ transformCollectionEntry schema p ff q) init =
        init ++ l.foldl (fun acc q => acc ++ transformCollectionEntry schema p ff q) []
  | [], init => by simp
  | q :: l, init => by
    rw [List.foldl_cons, List.foldl_cons,
      transform_foldl_append schema p ff l
        (init ++ transformCollectionEntry schema p ff q),
      transform_foldl_append schema p ff l
        ([] ++ transformCollectionEntry schema p ff q)]
    simp

theorem transform_cons {ν : Type} (schema : SchemaData) (p : String → ν)
    (ff : List FormFieldMeta) (q : String × CollectionChanges ν)
    (l : List (String × CollectionChanges ν)) :
    transformCollectionDataForMutation schema p ff (q :: l) =
      transformCollectionEntry schema p ff q ++
        transformCollectionDataForMutation schema p ff l := by
  unfold transformCollectionDataForMutation
  rw [List.foldl_cons, transform_foldl_append]
  simp

theorem lookup_transformEntry_ne {ν : Type} (schema : SchemaData) (p : String → ν)
    (ff : List FormFieldMeta) (q : String × CollectionChanges ν) (k : String)
    (h : q.1 ≠ k) :
    alistLookup (transformCollectionEntry schema p ff q) k = none := by
  unfold transformCollectionEntry
  cases ff.find? (fun f => f.name = q.1) with
  | none => rfl
  | some field =>
    have hgen : ∀ (tc : TransformedCollection ν) (c : Bool),
        alistLookup (if c = true then [(q.1, tc)] else []) k = none := by
      intro tc c
      cases c
      · rfl
      · unfold alistLookup
        rw [if_pos rfl, List.find?_cons_of_neg _ (by simp [h])]
        rfl
    by_cases hic : field.isCollection = true
    · show alistLookup (if field.isCollection = true then _ else []) k = none
      rw [if_pos hic]
      exact hgen _ _
    · show alistLookup (if field.isCollection = true then _ else []) k = none
      rw [if_neg hic]
      rfl

theorem lookup_transform_not_mem {ν : Type} (schema : SchemaData) (p : String → ν)
    (ff : List FormFieldMeta) (k : String) :
    ∀ changes : List (String × CollectionChanges ν),
      k ∉ changes.map Prod.fst →
      alistLookup (transformCollectionDataForMutation schema p ff changes) k = none
  | [], _ => rfl
  | q :: l, hmem => by
    have h1 : q.1 ≠ k := by
      intro he
      exact hmem (by simp [List.map_cons, he])
    have h2 : k ∉ l.map Prod.fst := by
      intro hm
      exact hmem (by simp [List.map_cons, hm])
    rw [transform_cons, alistLookup_append,
      lookup_transformEntry_ne schema p ff q k h1,
      lookup_transform_not_mem schema p ff k l h2]
    rfl

end Simfinity

namespace Simfinity

theorem lookup_transform_mem {ν : Type} (schema : SchemaData) (p : String → ν)
    (ff : List FormFieldMeta) :
    ∀ (changes : List (String × CollectionChanges ν)) (fieldName : String)
      (ch : CollectionChanges ν),
      (changes.map Prod.fst).Nodup → (fieldName, ch) ∈ changes →
      alistLookup (transformCollectionDataForMutation schema p ff changes) fieldName =
        alistLookup (transformCollectionEntry schema p ff (fieldName, ch)) fieldName
  | [], fieldName, ch, _, hmem => absurd hmem (List.not_mem_nil _)
  | q :: l, fieldName, ch, hnd, hmem => by
    have hnd' : (q.1 :: l.map Prod.fst).Nodup := by simpa using hnd
    rw [transform_cons, alistLookup_append]
    by_cases hq : q.1 = fieldName
    · have hnotin : fieldName ∉ l.map Prod.fst := by
        have := (List.nodup_cons.mp hnd').1
        rw [hq] at this
        exact this
      have hqe : q = (fieldName, ch) := by
        rcases List.mem_cons.mp hmem with h | h
        · exact h.symm
        · exact absurd (List.mem_map.mpr ⟨(fieldName, ch), h, rfl⟩) hnotin
      subst hqe
      rw [lookup_transform_not_mem schema p ff fieldName l hnotin]
      cases alistLookup (transformCollectionEntry schema p ff (fieldName, ch))
        fieldName <;> rfl
    · have hmem' : (fieldName, ch) ∈ l := by
        rcases List.mem_cons.mp hmem with h | h
        · exact absurd (congrArg Prod.fst h.symm) hq
        · exact h
      rw [lookup_transformEntry_ne schema p ff q fieldName hq]
      have hrec := lookup_transform_mem schema p ff l fieldName ch
        (List.nodup_cons.mp hnd').2 hmem'
      rw [← hrec]
      rfl

theorem lookup_transformEntry_self {ν : Type} (schema : SchemaData) (p : String → ν)
    (ff : List FormFieldMeta) (fieldName : String) (ch : CollectionChanges ν)
    (field : FormFieldMeta)
    (hfind : ff.find? (fun f => f.name = fieldName) = some field)
    (hic : field.isCollection = true) :
    alistLookup (transformCollectionEntry schema p ff (fieldName, ch)) fieldName =
      (if (!ch.added.isEmpty || !ch.modified.isEmpty || !ch.deleted.isEmpty) = true
      then
        some
          { added :=
              if !ch.added.isEmpty then
                some (ch.added.map (transformAddedItem schema p field))
              else none
            updated :=
              if !ch.modified.isEmpty then
                some (ch.modified.map (transformUpdatedItem schema p field))
              else none
            deleted :=
              if !ch.deleted.isEmpty then some (ch.deleted.map extractDeletedId)
              else none }
      else none) := by
  unfold transformCollectionEntry
  rw [hfind]
  show alistLookup (if field.isCollection = true then _ else []) fieldName = _
  rw [if_pos hic]
  cases hae : ch.added.isEmpty <;> cases hme : ch.modified.isEmpty <;>
    cases hde : ch.deleted.isEmpty <;>
      simp [TransformedCollection.nonEmpty, hae, hme, hde, alistLookup, List.find?]

end Simfinity

namespace Simfinity

/-- C4: per collection field with changes,
`transformCollectionDataForMutation` emits one output entry in which
added items carry no `__status`/`__originalData`/`__typename` metadata,
no connection field and no `"temp_"`-prefixed string id; modified items
appear under the `updated` key with the same metadata stripping; deleted
entries are reduced to their bare id values (an object's `id` member);
and a collection field whose three change lists are all empty is omitted
from the result. -/
theorem c4_transform_collection_changes_contract :
    (∀ (ν : Type) (l : JsObj ν) (v : JsVal ν),
      objGet l "id" = some v → extractDeletedId (.obj l) = v) ∧
    (∀ (ν : Type) (schema : SchemaData) (parseNum : String → ν)
      (formFields : List FormFieldMeta)
      (changes : List (String × CollectionChanges ν)) (fieldName : String)
      (ch : CollectionChanges ν) (field : FormFieldMeta),
      (changes.map Prod.fst).Nodup →
      (fieldName, ch) ∈ changes →
      formFields.find? (fun f => f.name = fieldName) = some field →
      field.isCollection = true →
      ((ch.added = [] ∧ ch.modified = [] ∧ ch.deleted = []) →
        alistLookup
          (transformCollectionDataForMutation schema parseNum formFields changes)
          fieldName = none) ∧
      (¬(ch.added = [] ∧ ch.modified = [] ∧ ch.deleted = []) →
        ∃ tc, alistLookup
            (transformCollectionDataForMutation schema parseNum formFields changes)
            fieldName = some tc ∧
          tc.added = (if ch.added.isEmpty then none else
            some (ch.added.map (transformAddedItem schema parseNum field))) ∧
          tc.updated = (if ch.modified.isEmpty then none else
            some (ch.modified.map (transformUpdatedItem schema parseNum field))) ∧
          tc.deleted = (if ch.deleted.isEmpty then none else
            some (ch.deleted.map extractDeletedId)) ∧
          (∀ la, tc.added = some la → ∀ item ∈ la,
            objHas item "__status" = false ∧ objHas item "__originalData" = false ∧
            objHas item "__typename" = false ∧
            (∀ cf, field.connectionField = some cf → cf ≠ "" →
              objHas item cf = false) ∧
            idNotTemp item) ∧
          (∀ lu, tc.updated = some lu → ∀ item ∈ lu,
            objHas item "__status" = false ∧ objHas item "__originalData" = false ∧
            objHas item "__typename" = false ∧
            (∀ cf, field.connectionField = some cf → cf ≠ "" →
              objHas item cf = false)))) := by
  constructor
  · intro ν l v h
    unfold extractDeletedId
    show (match objGet l "id" with
      | some v => v
      | none => JsVal.obj l) = v
    rw [h]
  · intro ν schema parseNum formFields changes fieldName ch field hnd hmem hfind hic
    have hlk := lookup_transform_mem schema parseNum formFields changes fieldName ch
      hnd hmem
    rw [lookup_transformEntry_self schema parseNum formFields fieldName ch field
      hfind hic] at hlk
    constructor
    · rintro ⟨ha, hm, hd⟩
      rw [hlk]
      simp [ha, hm, hd]
    · intro hne
      have hcond :
          (!ch.added.isEmpty || !ch.modified.isEmpty || !ch.deleted.isEmpty) = true := by
        cases hae : ch.added.isEmpty <;> cases hme : ch.modified.isEmpty <;>
          cases hde : ch.deleted.isEmpty <;> simp
        exact absurd ⟨List.isEmpty_iff.mp hae, List.isEmpty_iff.mp hme,
          List.isEmpty_iff.mp hde⟩ hne
      rw [hlk, if_pos hcond]
      refine ⟨_, rfl, ?_, ?_, ?_, ?_, ?_⟩
      · cases hae : ch.added.isEmpty <;> simp [hae]
      · cases hme : ch.modified.isEmpty <;> simp [hme]
      · cases hde : ch.deleted.isEmpty <;> simp [hde]
      · intro la hla item hitem
        cases hae : ch.added.isEmpty
        · rw [hae] at hla
          simp only [Bool.not_false, if_true] at hla
          have hla' : la = ch.added.map (transformAddedItem schema parseNum field) := by
            simpa using hla.symm
          subst hla'
          obtain ⟨pre, _, hpre⟩ := List.mem_map.mp hitem
          subst hpre
          have hp := transformAddedItem_props schema parseNum field pre
          exact ⟨hp.1, hp.2.1, hp.2.2.1, hp.2.2.2.1, hp.2.2.2.2⟩
        · rw [hae] at hla
          simp at hla
      · intro lu hlu item hitem
        cases hme : ch.modified.isEmpty
        · rw [hme] at hlu
          simp only [Bool.not_false, if_true] at hlu
          have hlu' : lu = ch.modified.map (transformUpdatedItem schema parseNum field) := by
            simpa using hlu.symm
          subst hlu'
          obtain ⟨pre, _, hpre⟩ := List.mem_map.mp hitem
          subst hpre
          have hp := transformUpdatedItem_props schema parseNum field pre
          exact ⟨hp.1, hp.2.1, hp.2.2.1, hp.2.2.2⟩
        · rw [hme] at hlu
          simp at hlu

end Simfinity

namespace Simfinity

/-- Witness for C4: on the concrete episode change map, the output entry
for `episodes` exists, its deleted list is the bare id `"5"`, and every
emitted added item carries no `__status` and no temporary id. -/
theorem c4_witness :
    ∃ tc, alistLookup (transformCollectionDataForMutation episodeSchema
        (fun _ => ()) episodeFormFields episodeChanges) "episodes" = some tc ∧
      tc.deleted = some [JsVal.str "5"] ∧
      (∀ la, tc.added = some la → ∀ item ∈ la,
        objHas item "__status" = false ∧ idNotTemp item) := by
  have h := (c4_transform_collection_changes_contract.2 Unit episodeSchema
    (fun _ => ()) episodeFormFields episodeChanges "episodes" episodeChangesEntry
    episodeCollectionField (by simp [episodeChanges])
    (by simp [episodeChanges]) rfl rfl).2
    (by simp [episodeChangesEntry])
  obtain ⟨tc, hlk, _, _, hdel, haddp, _⟩ := h
  refine ⟨tc, hlk, ?_, ?_⟩
  · rw [hdel]
    simp [episodeChangesEntry, extractDeletedId, objGet, List.find?]
  · intro la hla item hitem
    have hp := haddp la hla item hitem
    exact ⟨hp.1, hp.2.2.2.2⟩

end Simfinity
